import Mathlib

/-!
# Verification of the SaP BiCGStab(L) solver engine (`src/sap/bicgstab2.h`)

This file gives a shallow embedding of the templated C++ routine
`sap::bicgstabl` (and its `bicgstab1`/`bicgstab2` wrappers) and of the
`sap::system_error` exception type, and proves/refutes the frozen claims
about them.

Modelling choices, stated once here:

* The scalar type `ValueType` is modelled by `ℚ`: the spec declares the
  vector/scalar primitives "exact-arithmetic-equivalent BLAS-style
  primitives", and `ℚ` keeps every engine value exactly representable and
  executable.
* `cusp::blas::nrm2` returns the Euclidean norm `‖v‖₂`, which is
  irrational in general.  We track its square `‖v‖₂²` (`nrm2sq`) instead.
  Every use the engine makes of a norm is a comparison of products of
  nonnegative quantities (`r_norm_act < r_norm_min`,
  `|alpha|·‖u‖ < eps·‖x‖`), and `t ↦ t²` is strictly monotone on
  nonnegative reals, so each such comparison is represented faithfully by
  the corresponding comparison of squares (with `eps` squared as well).
* The convergence Monitor is an external, stateful oracle; it is modelled
  as a record of operations over an arbitrary state type `σ`.  Queries
  that may mutate the monitor return `Bool × σ`.
* The operator `A` and the preconditioner `P` are external collaborators;
  `cusp::multiply(A, v, out)` and `cusp::multiply(P, v, out)` are modelled
  by arbitrary functions `A P : Vec → Vec` (applying `P` models applying
  `P⁻¹`, exactly as in the source's comments).  A second copy of the
  engine (`bicgstablE`) lets the collaborators fail with an exception,
  modelled by `Except ε`; the pure computation between collaborator calls
  is shared between the two copies through named helper definitions.
* The C++ `while(true)` loop exits only through monitor-driven `break`s;
  the embedding bounds the number of outer iterations by a `fuel`
  argument.  A run that exhausts its fuel is marked `outOfFuel := true`
  and skips the finalization block, which the real routine would still
  execute later; claims about "the moment of return" are read on runs
  with `outOfFuel = false`.
* The engine records an event trace: every monitor interaction, plus
  instrumentation events (`bicgStepStart`, `stagCheck`, `minUpdate`)
  that snapshot the quantities the claims talk about at the exact program
  point where the source reads them.
* The scalar work arrays `tao`, `sigma`, `gamma_prime` are declared
  uninitialized in the C++ and rewritten from scratch on every outer
  iteration along every non-breakdown path; the embedding initializes
  them to `0` each outer iteration (the spec: "recomputed fresh each
  outer iteration").  Division is the total division of `ℚ`; every
  division the engine performs on a non-breakdown path has a divisor
  checked nonzero beforehand.
-/

set_option maxRecDepth 10000

namespace SaP

/-- Dense vectors (`cusp::array1d<ValueType, MemorySpace>`), scalars in `ℚ`. -/
abbrev Vec := List ℚ

/-- `cusp::blas::dotc x y`: inner product; conjugation is the identity on the
real scalar field modelled here. -/
def dotc (x y : Vec) : ℚ := (List.zipWith (· * ·) x y).sum

/-- The square of `cusp::blas::nrm2 v = ‖v‖₂` (see the header comment: all of
the engine's norm comparisons transfer faithfully to squares). -/
def nrm2sq (v : Vec) : ℚ := dotc v v

/-- `cusp::blas::axpby(x, y, out, a, b)`: `out = a·x + b·y`. -/
def axpby (x y : Vec) (a b : ℚ) : Vec :=
  List.zipWith (fun xi yi => a * xi + b * yi) x y

/-- `cusp::blas::axpy(x, y, a)`: `y += a·x`. -/
def axpy (x y : Vec) (a : ℚ) : Vec :=
  List.zipWith (fun xi yi => yi + a * xi) x y

/-- The stagnation threshold `eps = 1e-20` of the source (line 44). -/
def eps : ℚ := 1 / 10 ^ 20

/-- `eps²`, the threshold used with squared norms. -/
def epsSq : ℚ := eps * eps

/-- The all-zero vector of length `n`. -/
def zeros (n : Nat) : Vec := List.replicate n 0

/-- The reason enumeration of `src/sap/exception.h`
(`sap::system_error::Reason`). -/
inductive Reason where
  | Zero_pivoting
  | Negative_DB_weight
  | Illegal_update
  | Illegal_solve
  | Matrix_singular
  deriving DecidableEq, Repr

/-- `sap::system_error`: a tagged-reason failure type (reason + message).
The solver engine never constructs it; it belongs to the
preconditioner/partitioning subsystem. -/
structure system_error where
  reason : Reason
  what_arg : String
  deriving DecidableEq, Repr

/-- The numeric code of each `sap::system_error::Reason` enumerator. -/
def Reason.code : Reason → Int
  | .Zero_pivoting => -1
  | .Negative_DB_weight => -2
  | .Illegal_update => -3
  | .Illegal_solve => -4
  | .Matrix_singular => -5

/-- The Monitor contract consumed by the engine (spec §4.2), over an
arbitrary monitor state `σ`.  Queries that may mutate return the new state. -/
structure Monitor (σ : Type) where
  increment : ℚ → σ → σ
  needCheckConvergence : ℚ → σ → Bool × σ
  finishedWith : ℚ → σ → Bool × σ
  finished : σ → Bool × σ
  stop : Int → String → σ → σ
  incrementStag : σ → σ
  resetStag : σ → σ
  converged : σ → Bool
  updateResidual : ℚ → σ → σ

/-- Trace events.  Monitor interactions carry their arguments and boolean
results; the instrumentation events snapshot engine state at the program
point where they are emitted:

* `bicgStepStart j rho0` — entry of BiCG lookahead step `j`, with the
  `rho0` value that the `rho0 == 0` breakdown check is about to inspect;
* `stagCheck site coefSq uuNormSq rrNormSq xxNormSq res` — a stagnation
  test.  `site 0` is the BiCG-phase test (line 139), `site 1` the
  minimal-residual test on `gamma[1]` (line 212), `site 2` the tests on
  `gamma''[j]` (line 264).  `coefSq` is the square of the coefficient
  tested, `uuNormSq = ‖uu[0]‖²`, `rrNormSq` the squared norm of the
  residual vector the source multiplies at that site (`rr[0]` at sites
  0 and 1, `rr[j]` at site 2), `xxNormSq = ‖xx‖²`, and `res` the branch
  taken (`true` = `incrementStag`, `false` = `resetStag`);
* `minUpdate oldMin act newMin xxSnap rr0Snap` — one of the three
  `r_norm_min`/`x_min` update sites, with the old minimum, the current
  `r_norm_act`, the new minimum, and snapshots of `xx` and `rr[0]`. -/
inductive MEvent where
  | increment (amount : ℚ)
  | bicgStepStart (j : Nat) (rho0 : ℚ)
  | stop (code : Int) (reason : String)
  | stagCheck (site : Nat) (coefSq uuNormSq rrNormSq xxNormSq : ℚ) (res : Bool)
  | needCheck (rNorm : ℚ) (res : Bool)
  | finishedWith (rNormAct : ℚ) (res : Bool)
  | finishedQ (res : Bool)
  | minUpdate (oldMin act newMin : ℚ) (xxSnap rr0Snap : Vec)
  | convergedQ (res : Bool)
  | updateResidual (norm : ℚ)
  deriving DecidableEq, Repr

/-- Loop control: continue the enclosing loop, or `break` out of it. -/
inductive Flow where
  | cont
  | brk
  deriving DecidableEq, Repr

/-- The working state of one solve call (bicgstab2.h lines 42–89).
`rr`/`uu` are the histories `rr[0..L]`, `uu[0..L]`; all norms are squared. -/
structure SolveState where
  rho0 : ℚ
  alpha : ℚ
  omega : ℚ
  r0 : Vec
  r : Vec
  u : Vec
  x : Vec
  xx : Vec
  xMin : Vec
  rr : List Vec
  uu : List Vec
  rNorm : ℚ
  rNormAct : ℚ
  rNormMin : ℚ
  deriving DecidableEq, Repr

/-- Result of the shared residual-recomputation checkpoint. -/
structure CpRes (σ : Type) where
  st : SolveState
  mon : σ
  events : List MEvent
  brk : Bool

/-- Result of one step (or one run) of a sub-phase loop. -/
structure StepRes (σ : Type) where
  st : SolveState
  mon : σ
  events : List MEvent
  flow : Flow

/-- Result of the `x_min` update site. -/
structure MinRes where
  st : SolveState
  ev : MEvent

/-- Result of a no-argument `monitor.finished()` query. -/
structure FinQ (σ : Type) where
  fin : Bool
  mon : σ
  ev : MEvent

/-- Result of one step (or one run) of the Gram–Schmidt loop of the
minimal-residual sub-phase, carrying the scalar arrays. -/
structure OrthRes (σ : Type) where
  st : SolveState
  sigma : List ℚ
  gp : List ℚ
  tao : List (List ℚ)
  mon : σ
  events : List MEvent
  flow : Flow

/-- Result of one full outer iteration of the `while(true)` loop. -/
structure IterRes (σ : Type) where
  st : SolveState
  mon : σ
  events : List MEvent
  flow : Flow

/-- Result of the fuel-bounded outer loop. -/
structure LoopRes (σ : Type) where
  st : SolveState
  mon : σ
  events : List MEvent
  oof : Bool

/-- Result of the finalization block (lines 316–353). -/
structure FinRes (σ : Type) where
  st : SolveState
  mon : σ
  events : List MEvent

/-- Result of a whole `bicgstabl` call. -/
structure BRes (σ : Type) where
  st : SolveState
  mon : σ
  trace : List MEvent
  outOfFuel : Bool

/-- `monitor.finished()` (no-argument overload), with its trace event. -/
def askFinished {σ : Type} (Mon : Monitor σ) (m : σ) : FinQ σ :=
  let p := Mon.finished m
  ⟨p.1, p.2, .finishedQ p.1⟩

/-- The pure tail of the checkpoint, given the collaborator product
`apxx = A·P⁻¹·xx` (lines 156–162): `rr[0] := b − apxx`, `r_norm_act` its
squared norm, then `monitor.finished(r_norm_act)`. -/
def checkpointCore {σ : Type} (Mon : Monitor σ) (b : Vec) (st : SolveState)
    (m : σ) (apxx : Vec) : CpRes σ :=
  let rr0 := axpby b apxx 1 (-1)
  let act := nrm2sq rr0
  let fw := Mon.finishedWith act m
  ⟨{st with rr := st.rr.set 0 rr0, rNormAct := act}, fw.2,
    [.needCheck st.rNorm true, .finishedWith act fw.1], fw.1⟩

/-- The residual recomputation checkpoint, the identical block at lines
148–163, 229–244 and 274–289: if `monitor.needCheckConvergence(r_norm)`,
overwrite `rr[0] := b − A·P⁻¹·xx`, set `r_norm_act` to its (squared) norm
and ask `monitor.finished(r_norm_act)`; `brk` is that answer. -/
def checkpointStep {σ : Type} (A P : Vec → Vec) (Mon : Monitor σ) (b : Vec)
    (st : SolveState) (m : σ) : CpRes σ :=
  let nc := Mon.needCheckConvergence st.rNorm m
  if nc.1 then checkpointCore Mon b st nc.2 (A (P st.xx))
  else ⟨st, nc.2, [.needCheck st.rNorm false], false⟩

/-- The `(r_norm_min, x_min)` update site (lines 165–169, 246–250, 291–295):
replace the pair iff `r_norm_act < r_norm_min`. -/
def minUpdateStep (st : SolveState) : MinRes :=
  let o := st.rNormMin
  let rr0 := st.rr.getD 0 []
  if st.rNormAct < o then
    ⟨{st with rNormMin := st.rNormAct, xMin := st.xx},
      .minUpdate o st.rNormAct st.rNormAct st.xx rr0⟩
  else
    ⟨st, .minUpdate o st.rNormAct o st.xx rr0⟩

/-- The common tail of a BiCG / second-minimal-residual step: take the
checkpoint's outcome; on `finished(r_norm_act)` break out, otherwise run
the `x_min` update site and the `monitor.finished()` check. -/
def stepWrap {σ : Type} (Mon : Monitor σ) (evs : List MEvent) (cp : CpRes σ) :
    StepRes σ :=
  if cp.brk then ⟨cp.st, cp.mon, evs ++ cp.events, .brk⟩
  else
    let mu := minUpdateStep cp.st
    let fq := askFinished Mon cp.mon
    ⟨mu.st, fq.mon, evs ++ cp.events ++ [mu.ev, fq.ev],
      if fq.fin then .brk else .cont⟩

/-- `beta = alpha * rho1 / rho0` of line 106 (with `rho1 = ⟨rr[j], r0⟩`). -/
def bicgBeta (st : SolveState) (j : Nat) : ℚ :=
  st.alpha * dotc (st.rr.getD j []) st.r0 / st.rho0

/-- The direction history after lines 109–112:
`uu[i] := rr[i] − beta·uu[i]` for `i ≤ j`. -/
def bicgUUpre (st : SolveState) (j : Nat) : List Vec :=
  let beta := bicgBeta st j
  (List.range (j + 1)).foldl
    (fun uu i => uu.set i (axpby (st.rr.getD i []) (uu.getD i []) 1 (-beta))) st.uu

/-- The direction history after lines 109–116: additionally
`uu[j+1] := A·P⁻¹·uu[j]`. -/
def bicgUU (A P : Vec → Vec) (j : Nat) (st : SolveState) : List Vec :=
  let uuB := bicgUUpre st j
  uuB.set (j + 1) (A (P (uuB.getD j [])))

/-- `gamma = ⟨uu[j+1], r0⟩` of line 119. -/
def bicgGamma (A P : Vec → Vec) (j : Nat) (st : SolveState) : ℚ :=
  dotc ((bicgUU A P j st).getD (j + 1) []) st.r0

/-- The state reached just after line 119 on the `rho0 ≠ 0` path: `rho0`
overwritten with `rho1` (line 107) and the updated direction history. -/
def bicgMidState (A P : Vec → Vec) (j : Nat) (st : SolveState) : SolveState :=
  {st with rho0 := dotc (st.rr.getD j []) st.r0, uu := bicgUU A P j st}

/-- The residual history after lines 128–131:
`rr[i] −= alpha·uu[i+1]` for `i ≤ j`. -/
def bicgRRA (rrOld : List Vec) (uuN : List Vec) (j : Nat) (alpha : ℚ) : List Vec :=
  (List.range (j + 1)).foldl
    (fun rr i => rr.set i (axpy (uuN.getD (i + 1) []) (rr.getD i []) (-alpha))) rrOld

/-- `alpha = rho0 / gamma` of line 126 (with the freshly assigned
`rho0 = rho1`). -/
def bicgAlpha (A P : Vec → Vec) (j : Nat) (st : SolveState) : ℚ :=
  dotc (st.rr.getD j []) st.r0 / bicgGamma A P j st

/-- The stagnation decision of line 139:
`|alpha|·‖uu[0]‖ < eps·‖xx‖` (compared in squares). -/
def bicgStagRes (A P : Vec → Vec) (j : Nat) (st : SolveState) : Bool :=
  decide ((bicgAlpha A P j st) ^ 2 * nrm2sq ((bicgUU A P j st).getD 0 []) <
    epsSq * nrm2sq st.xx)

/-- The stagnation event emitted at line 139. -/
def bicgEvStag (A P : Vec → Vec) (j : Nat) (st : SolveState) : MEvent :=
  .stagCheck 0 ((bicgAlpha A P j st) ^ 2) (nrm2sq ((bicgUU A P j st).getD 0 []))
    (nrm2sq ((bicgRRA st.rr (bicgUU A P j st) j (bicgAlpha A P j st)).getD 0 []))
    (nrm2sq st.xx) (bicgStagRes A P j st)

/-- The state reached just after line 146 on the non-breakdown path:
residual history updated (lines 128–137), `r_norm = r_norm_act = ‖rr[0]‖²`
(line 133), `xx += alpha·uu[0]` (line 146). -/
def bicgSt2 (A P : Vec → Vec) (j : Nat) (st : SolveState) : SolveState :=
  let alpha := bicgAlpha A P j st
  let uuN := bicgUU A P j st
  let rrA := bicgRRA st.rr uuN j alpha
  let rn := nrm2sq (rrA.getD 0 [])
  {bicgMidState A P j st with
    alpha := alpha
    rr := rrA.set (j + 1) (A (P (rrA.getD j [])))
    rNorm := rn
    rNormAct := rn
    xx := axpy (uuN.getD 0 []) st.xx alpha}

/-- One lookahead step `j` of the BiCG sub-phase (lines 97–174). -/
def bicgStep {σ : Type} (A P : Vec → Vec) (Mon : Monitor σ) (b : Vec) (j : Nat)
    (st : SolveState) (m : σ) : StepRes σ :=
  let ev0 := MEvent.bicgStepStart j st.rho0
  if st.rho0 = 0 then
    ⟨st, Mon.stop (-10) "rho0 is zero" m, [ev0, .stop (-10) "rho0 is zero"], .brk⟩
  else
    if bicgGamma A P j st = 0 then
      ⟨bicgMidState A P j st, Mon.stop (-11) "gamma is zero" m,
        [ev0, .stop (-11) "gamma is zero"], .brk⟩
    else
      let m1 := if bicgStagRes A P j st then Mon.incrementStag m else Mon.resetStag m
      stepWrap Mon [ev0, bicgEvStag A P j st]
        (checkpointStep A P Mon b (bicgSt2 A P j st) m1)

/-- The BiCG sub-phase loop `for j = 0 … L−1`, with `break` semantics. -/
def runBicg {σ : Type} (A P : Vec → Vec) (Mon : Monitor σ) (b : Vec) :
    List Nat → SolveState → σ → StepRes σ
  | [], st, m => ⟨st, m, [], .cont⟩
  | j :: rest, st, m =>
    let r := bicgStep A P Mon b j st m
    match r.flow with
    | .brk => ⟨r.st, r.mon, r.events, .brk⟩
    | .cont =>
      let r2 := runBicg A P Mon b rest r.st r.mon
      ⟨r2.st, r2.mon, r.events ++ r2.events, r2.flow⟩

/-- The inner orthogonalization loop of lines 182–185: for `i = 1 … j−1`,
`tao[i][j] := ⟨rr[j], rr[i]⟩ / sigma[i]` and `rr[j] −= tao[i][j]·rr[i]`,
returning the updated `rr[j]` and `tao`. -/
def mrInner (j : Nat) (st : SolveState) (sigma : List ℚ) (tao : List (List ℚ)) :
    Vec × List (List ℚ) :=
  ((List.range (j - 1)).map (· + 1)).foldl
    (fun p i =>
      let t := dotc p.1 (st.rr.getD i []) / sigma.getD i 0
      (axpy (st.rr.getD i []) p.1 (-t), p.2.set i ((p.2.getD i []).set j t)))
    (st.rr.getD j [], tao)

/-- The pivot `sigma[j] = ⟨rr[j], rr[j]⟩` of line 186 (after the inner loop). -/
def mrSigma (j : Nat) (st : SolveState) (sigma : List ℚ) (tao : List (List ℚ)) : ℚ :=
  nrm2sq (mrInner j st sigma tao).1

/-- One step `j` of the Gram–Schmidt loop of lines 181–192. -/
def mrOrthStep {σ : Type} (Mon : Monitor σ) (j : Nat) (st : SolveState)
    (sigma gp : List ℚ) (tao : List (List ℚ)) (m : σ) : OrthRes σ :=
  let p := mrInner j st sigma tao
  let sj := mrSigma j st sigma tao
  let sigma2 := sigma.set j sj
  let st' := {st with rr := st.rr.set j p.1}
  if sj = 0 then
    ⟨st', sigma2, gp, p.2, Mon.stop (-12) "a sigma value is zero" m,
      [.stop (-12) "a sigma value is zero"], .brk⟩
  else
    let gpj := dotc p.1 (st'.rr.getD 0 []) / sj
    ⟨st', sigma2, gp.set j gpj, p.2, m, [], .cont⟩

/-- The Gram–Schmidt loop `for j = 1 … L` with `break` semantics. -/
def runOrth {σ : Type} (Mon : Monitor σ) :
    List Nat → SolveState → List ℚ → List ℚ → List (List ℚ) → σ → OrthRes σ
  | [], st, sigma, gp, tao, m => ⟨st, sigma, gp, tao, m, [], .cont⟩
  | j :: rest, st, sigma, gp, tao, m =>
    let r := mrOrthStep Mon j st sigma gp tao m
    match r.flow with
    | .brk => ⟨r.st, r.sigma, r.gp, r.tao, r.mon, r.events, .brk⟩
    | .cont =>
      let r2 := runOrth Mon rest r.st r.sigma r.gp r.tao r.mon
      ⟨r2.st, r2.sigma, r2.gp, r2.tao, r2.mon, r.events ++ r2.events, r2.flow⟩

/-- Lines 197–210: `gamma[L] := gamma'[L]`; back-substitution
`gamma[j] := gamma'[j] − Σ_{i=j+1..L} tao[j][i]·gamma[i]` for `j = L−1 … 1`;
then `gamma''[j] := gamma[j+1] + Σ_{i=j+1..L−1} tao[j][i]·gamma[i+1]` for
`j = 1 … L−1`.  Returns `(gamma, gamma'')`. -/
def mrGammas (L : Nat) (gp : List ℚ) (tao : List (List ℚ)) : List ℚ × List ℚ :=
  let gamma0 := (List.replicate (L + 2) (0 : ℚ)).set L (gp.getD L 0)
  let gamma := (((List.range (L - 1)).map (· + 1)).reverse).foldl
    (fun g j =>
      let s := ((List.range (L - j)).map (· + (j + 1))).foldl
        (fun acc i => acc + (tao.getD j []).getD i 0 * g.getD i 0) 0
      g.set j (gp.getD j 0 - s)) gamma0
  let gpp := ((List.range (L - 1)).map (· + 1)).foldl
    (fun g2 j =>
      let s := ((List.range (L - 1 - j)).map (· + (j + 1))).foldl
        (fun acc i => acc + (tao.getD j []).getD i 0 * gamma.getD (i + 1) 0) 0
      g2.set j (gamma.getD (j + 1) 0 + s)) (List.replicate (L + 2) (0 : ℚ))
  (gamma, gpp)

/-- Lines 197–225 without the monitor/trace bookkeeping: the local
least-squares combination.  Returns the updated state, the monitor state
after the stagnation test on `gamma[1]`, and that test's event. -/
def mrMain {σ : Type} (L : Nat) (Mon : Monitor σ) (gp : List ℚ)
    (tao : List (List ℚ)) (st1 : SolveState) (m : σ) : SolveState × σ × MEvent :=
  let gg := mrGammas L gp tao
  let g1 := gg.1.getD 1 0
  let stag1 := decide (g1 ^ 2 * nrm2sq (st1.rr.getD 0 []) < epsSq * nrm2sq st1.xx)
  let ev1 := MEvent.stagCheck 1 (g1 ^ 2) (nrm2sq (st1.uu.getD 0 []))
    (nrm2sq (st1.rr.getD 0 [])) (nrm2sq st1.xx) stag1
  let m2 := if stag1 then Mon.incrementStag m else Mon.resetStag m
  let xx2 := axpy (st1.rr.getD 0 []) st1.xx g1
  let rr0b := axpy (st1.rr.getD L []) (st1.rr.getD 0 []) (-(gp.getD L 0))
  let uu0b := axpy (st1.uu.getD L []) (st1.uu.getD 0 []) (-(gg.1.getD L 0))
  let rn := nrm2sq rr0b
  let st2 := {st1 with
    omega := gg.1.getD L 0
    xx := xx2
    rr := st1.rr.set 0 rr0b
    uu := st1.uu.set 0 uu0b
    rNorm := rn
    rNormAct := rn}
  (st2, m2, ev1)

/-- The pure head of one step of the second minimal-residual loop
(lines 262–272): `uu[0] −= gamma[j]·uu[j]`; stagnation test on
`gamma''[j]`; `xx += gamma''[j]·rr[j]`; `rr[0] −= gamma'[j]·rr[j]`;
cheap norm.  Returns the updated state, monitor state, and the
stagnation event. -/
def mrP3mid {σ : Type} (Mon : Monitor σ) (gam gpp gp : List ℚ) (j : Nat)
    (st : SolveState) (m : σ) : SolveState × σ × MEvent :=
  let uu0 := axpy (st.uu.getD j []) (st.uu.getD 0 []) (-(gam.getD j 0))
  let stU := {st with uu := st.uu.set 0 uu0}
  let gj := gpp.getD j 0
  let stagRes := decide (gj ^ 2 * nrm2sq (stU.rr.getD j []) < epsSq * nrm2sq stU.xx)
  let evStag := MEvent.stagCheck 2 (gj ^ 2) (nrm2sq (stU.uu.getD 0 []))
    (nrm2sq (stU.rr.getD j [])) (nrm2sq stU.xx) stagRes
  let m1 := if stagRes then Mon.incrementStag m else Mon.resetStag m
  let xx2 := axpy (stU.rr.getD j []) stU.xx gj
  let rr0 := axpy (stU.rr.getD j []) (stU.rr.getD 0 []) (-(gp.getD j 0))
  let rn := nrm2sq rr0
  ({stU with xx := xx2, rr := stU.rr.set 0 rr0, rNorm := rn, rNormAct := rn}, m1, evStag)

/-- One step `j` of the second minimal-residual loop (lines 261–300). -/
def mrPart3Step {σ : Type} (A P : Vec → Vec) (Mon : Monitor σ) (b : Vec)
    (gam gpp gp : List ℚ) (j : Nat) (st : SolveState) (m : σ) : StepRes σ :=
  let t := mrP3mid Mon gam gpp gp j st m
  stepWrap Mon [t.2.2] (checkpointStep A P Mon b t.1 t.2.1)

/-- The loop `for j = 1 … L−1` of lines 261–300 with `break` semantics. -/
def runPart3 {σ : Type} (A P : Vec → Vec) (Mon : Monitor σ) (b : Vec)
    (gam gpp gp : List ℚ) : List Nat → SolveState → σ → StepRes σ
  | [], st, m => ⟨st, m, [], .cont⟩
  | j :: rest, st, m =>
    let r := mrPart3Step A P Mon b gam gpp gp j st m
    match r.flow with
    | .brk => ⟨r.st, r.mon, r.events, .brk⟩
    | .cont =>
      let r2 := runPart3 A P Mon b gam gpp gp rest r.st r.mon
      ⟨r2.st, r2.mon, r.events ++ r2.events, r2.flow⟩

/-- One full iteration of the outer `while(true)` loop (lines 91–314).
`flow = .brk` means one of the `break`s out of the `while` fired. -/
def outerIter {σ : Type} (L : Nat) (A P : Vec → Vec) (Mon : Monitor σ) (b : Vec)
    (st0 : SolveState) (m0 : σ) : IterRes σ :=
  -- line 93: rho0 ← −omega·rho0;  line 95: monitor.increment(0.25)
  let st := {st0 with rho0 := -st0.omega * st0.rho0}
  let m := Mon.increment (1 / 4) m0
  let evh : List MEvent := [.increment (1 / 4)]
  let rB := runBicg A P Mon b (List.range L) st m
  -- line 176
  let f1 := askFinished Mon rB.mon
  if f1.fin then ⟨rB.st, f1.mon, evh ++ rB.events ++ [f1.ev], .brk⟩ else
  let rO := runOrth Mon ((List.range L).map (· + 1)) rB.st
    (List.replicate (L + 2) 0) (List.replicate (L + 2) 0)
    (List.replicate (L + 2) (List.replicate (L + 2) 0)) f1.mon
  -- line 193
  let f2 := askFinished Mon rO.mon
  if f2.fin then
    ⟨rO.st, f2.mon, evh ++ rB.events ++ [f1.ev] ++ rO.events ++ [f2.ev], .brk⟩
  else
  -- lines 197–225
  let t := mrMain L Mon rO.gp rO.tao rO.st f2.mon
  -- line 227
  let m3 := Mon.increment (1 / 4) t.2.1
  let evsA := evh ++ rB.events ++ [f1.ev] ++ rO.events ++ [f2.ev] ++
    [t.2.2, .increment (1 / 4)]
  -- lines 229–244
  let cp := checkpointStep A P Mon b t.1 m3
  if cp.brk then ⟨cp.st, cp.mon, evsA ++ cp.events, .brk⟩ else
  -- lines 246–250
  let mu := minUpdateStep cp.st
  -- lines 252–254
  let f3 := askFinished Mon cp.mon
  if f3.fin then ⟨mu.st, f3.mon, evsA ++ cp.events ++ [mu.ev, f3.ev], .brk⟩ else
  -- line 256
  let m4 := Mon.increment (1 / 4) f3.mon
  let evsB := evsA ++ cp.events ++ [mu.ev, f3.ev, .increment (1 / 4)]
  -- lines 261–300
  let gg := mrGammas L rO.gp rO.tao
  let rP := runPart3 A P Mon b gg.1 gg.2 rO.gp ((List.range (L - 1)).map (· + 1)) mu.st m4
  -- line 302
  let f4 := askFinished Mon rP.mon
  if f4.fin then ⟨rP.st, f4.mon, evsB ++ rP.events ++ [f4.ev], .brk⟩ else
  -- lines 306–313: copy (uu[0], xx, rr[0]) into (u, x, r); increment(0.25)
  let stC := {rP.st with u := rP.st.uu.getD 0 [], x := rP.st.xx, r := rP.st.rr.getD 0 []}
  let m5 := Mon.increment (1 / 4) f4.mon
  ⟨stC, m5, evsB ++ rP.events ++ [f4.ev, .increment (1 / 4)], .cont⟩

/-- The outer `while(true)` loop, bounded by `fuel` iterations.
`oof = true` means the fuel ran out with the loop still running. -/
def outerLoop {σ : Type} (L : Nat) (A P : Vec → Vec) (Mon : Monitor σ) (b : Vec) :
    Nat → SolveState → σ → LoopRes σ
  | 0, st, m => ⟨st, m, [], true⟩
  | fuel + 1, st, m =>
    let r := outerIter L A P Mon b st m
    match r.flow with
    | .brk => ⟨r.st, r.mon, r.events, false⟩
    | .cont =>
      let r2 := outerLoop L A P Mon b fuel r.st r.mon
      ⟨r2.st, r2.mon, r.events ++ r2.events, r2.oof⟩

/-- The initial state given the collaborator product `ax = A·x0`
(lines 42–89): `r0 = b − ax`, `r = r0`, `u = 0`, `uu[0] = u`, `rr[0] = r`,
`xx = x`, `x_min = 0`, `r_norm_min = r_norm = r_norm_act = ‖r‖²`. -/
def mkInit (ax : Vec) (b x : Vec) (L : Nat) : SolveState :=
  let n := b.length
  let r0 := axpby b ax 1 (-1)
  let rnm := nrm2sq r0
  { rho0 := 1
    alpha := 0
    omega := 1
    r0 := r0
    r := r0
    u := zeros n
    x := x
    xx := x
    xMin := zeros n
    rr := (List.replicate (L + 1) (zeros n)).set 0 r0
    uu := List.replicate (L + 1) (zeros n)
    rNorm := rnm
    rNormAct := rnm
    rNormMin := rnm }

/-- Initialization (lines 42–89). -/
def initState (A : Vec → Vec) (b x : Vec) (L : Nat) : SolveState :=
  mkInit (A x) b x L

/-- The non-converged finalization core, given the four collaborator
products (lines 320–352). -/
def finalizeCore {σ : Type} (Mon : Monitor σ) (b : Vec) (st : SolveState)
    (m : σ) (Pxx APxx Pxm APxm : Vec) : FinRes σ :=
  let rc := axpby b APxx 1 (-1)
  let rcm := axpby b APxm 1 (-1)
  let rcn := nrm2sq rc
  let rcmn := nrm2sq rcm
  if rcn < rcmn then
    ⟨{st with x := Pxx}, Mon.updateResidual rcn m, [.convergedQ false, .updateResidual rcn]⟩
  else
    ⟨{st with x := Pxm}, Mon.updateResidual rcmn m, [.convergedQ false, .updateResidual rcmn]⟩

/-- The finalization block (lines 316–353): if `monitor.converged()`, the
answer is `x := P⁻¹·xx`; otherwise both true residuals are recomputed and
the preconditioned iterate with the (strictly) smaller one is returned,
its norm reported through `monitor.updateResidual`. -/
def finalize {σ : Type} (A P : Vec → Vec) (Mon : Monitor σ) (b : Vec)
    (st : SolveState) (m : σ) : FinRes σ :=
  if Mon.converged m then
    ⟨{st with x := P st.xx}, m, [.convergedQ true]⟩
  else
    finalizeCore Mon b st m (P st.xx) (A (P st.xx)) (P st.xMin) (A (P st.xMin))

/-- The whole solver call `sap::bicgstabl<…, L>(A, x, b, monitor, P)`
(lines 31–354), with the initial guess `x0` and `fuel` outer iterations
allowed.  On fuel exhaustion the finalization block is skipped and the
result is flagged `outOfFuel`. -/
def bicgstabl {σ : Type} (L : Nat) (A P : Vec → Vec) (Mon : Monitor σ)
    (b x0 : Vec) (m : σ) (fuel : Nat) : BRes σ :=
  let st0 := initState A b x0 L
  let lr := outerLoop L A P Mon b fuel st0 m
  if lr.oof then ⟨lr.st, lr.mon, lr.events, true⟩
  else
    let f := finalize A P Mon b lr.st lr.mon
    ⟨f.st, f.mon, lr.events ++ f.events, false⟩

/-- `sap::bicgstab1` (lines 357–365): the `L = 1` specialization, with the
source's argument order `(A, x, b, monitor, P)`. -/
def bicgstab1 {σ : Type} (A : Vec → Vec) (x b : Vec) (Mon : Monitor σ)
    (P : Vec → Vec) (m : σ) (fuel : Nat) : BRes σ :=
  bicgstabl 1 A P Mon b x m fuel

/-- `sap::bicgstab2` (lines 368–376): the `L = 2` specialization. -/
def bicgstab2 {σ : Type} (A : Vec → Vec) (x b : Vec) (Mon : Monitor σ)
    (P : Vec → Vec) (m : σ) (fuel : Nat) : BRes σ :=
  bicgstabl 2 A P Mon b x m fuel

/-! ## The engine with fallible collaborators

`bicgstablE` is the same routine with the operator and the preconditioner
allowed to raise an exception (`Except ε`), exactly at their call sites;
everything between collaborator calls is the same pure code as above.
The monitor and the vector primitives are the same pure collaborators as
above (the claim under scrutiny concerns exceptions raised by the
operator/preconditioner collaborators). -/

/-- The checkpoint with fallible collaborators. -/
def checkpointStepE {σ ε : Type} (A P : Vec → Except ε Vec) (Mon : Monitor σ)
    (b : Vec) (st : SolveState) (m : σ) : Except ε (CpRes σ) :=
  let nc := Mon.needCheckConvergence st.rNorm m
  if nc.1 then do
    let pv ← P st.xx
    let av ← A pv
    return checkpointCore Mon b st nc.2 av
  else
    return ⟨st, nc.2, [.needCheck st.rNorm false], false⟩

/-- One BiCG lookahead step with fallible collaborators. -/
def bicgStepE {σ ε : Type} (A P : Vec → Except ε Vec) (Mon : Monitor σ)
    (b : Vec) (j : Nat) (st : SolveState) (m : σ) : Except ε (StepRes σ) :=
  let ev0 := MEvent.bicgStepStart j st.rho0
  if st.rho0 = 0 then
    return ⟨st, Mon.stop (-10) "rho0 is zero" m, [ev0, .stop (-10) "rho0 is zero"], .brk⟩
  else do
    let rho1 := dotc (st.rr.getD j []) st.r0
    let uuB := bicgUUpre st j
    let pv ← P (uuB.getD j [])
    let av ← A pv
    let uuN := uuB.set (j + 1) av
    let gamma := dotc (uuN.getD (j + 1) []) st.r0
    let st1 := {st with rho0 := rho1, uu := uuN}
    if gamma = 0 then
      return ⟨st1, Mon.stop (-11) "gamma is zero" m, [ev0, .stop (-11) "gamma is zero"], .brk⟩
    else
      let alpha := rho1 / gamma
      let rrA := bicgRRA st.rr uuN j alpha
      let rn := nrm2sq (rrA.getD 0 [])
      let pv2 ← P (rrA.getD j [])
      let av2 ← A pv2
      let rrN := rrA.set (j + 1) av2
      let stagRes := decide (alpha ^ 2 * nrm2sq (uuN.getD 0 []) < epsSq * nrm2sq st.xx)
      let evStag := MEvent.stagCheck 0 (alpha ^ 2) (nrm2sq (uuN.getD 0 [])) rn
        (nrm2sq st.xx) stagRes
      let m1 := if stagRes then Mon.incrementStag m else Mon.resetStag m
      let xxN := axpy (uuN.getD 0 []) st.xx alpha
      let st2 := {st1 with alpha := alpha, rr := rrN, rNorm := rn, rNormAct := rn, xx := xxN}
      let cp ← checkpointStepE A P Mon b st2 m1
      return stepWrap Mon [ev0, evStag] cp

/-- The BiCG sub-phase loop with fallible collaborators. -/
def runBicgE {σ ε : Type} (A P : Vec → Except ε Vec) (Mon : Monitor σ) (b : Vec) :
    List Nat → SolveState → σ → Except ε (StepRes σ)
  | [], st, m => return ⟨st, m, [], .cont⟩
  | j :: rest, st, m => do
    let r ← bicgStepE A P Mon b j st m
    match r.flow with
    | .brk => return ⟨r.st, r.mon, r.events, .brk⟩
    | .cont => do
      let r2 ← runBicgE A P Mon b rest r.st r.mon
      return ⟨r2.st, r2.mon, r.events ++ r2.events, r2.flow⟩

/-- One step of the second minimal-residual loop with fallible
collaborators. -/
def mrPart3StepE {σ ε : Type} (A P : Vec → Except ε Vec) (Mon : Monitor σ)
    (b : Vec) (gam gpp gp : List ℚ) (j : Nat) (st : SolveState) (m : σ) :
    Except ε (StepRes σ) := do
  let t := mrP3mid Mon gam gpp gp j st m
  let cp ← checkpointStepE A P Mon b t.1 t.2.1
  return stepWrap Mon [t.2.2] cp

/-- The loop `for j = 1 … L−1` with fallible collaborators. -/
def runPart3E {σ ε : Type} (A P : Vec → Except ε Vec) (Mon : Monitor σ) (b : Vec)
    (gam gpp gp : List ℚ) : List Nat → SolveState → σ → Except ε (StepRes σ)
  | [], st, m => return ⟨st, m, [], .cont⟩
  | j :: rest, st, m => do
    let r ← mrPart3StepE A P Mon b gam gpp gp j st m
    match r.flow with
    | .brk => return ⟨r.st, r.mon, r.events, .brk⟩
    | .cont => do
      let r2 ← runPart3E A P Mon b gam gpp gp rest r.st r.mon
      return ⟨r2.st, r2.mon, r.events ++ r2.events, r2.flow⟩

/-- One outer iteration with fallible collaborators. -/
def outerIterE {σ ε : Type} (L : Nat) (A P : Vec → Except ε Vec) (Mon : Monitor σ)
    (b : Vec) (st0 : SolveState) (m0 : σ) : Except ε (IterRes σ) := do
  let st := {st0 with rho0 := -st0.omega * st0.rho0}
  let m := Mon.increment (1 / 4) m0
  let evh : List MEvent := [.increment (1 / 4)]
  let rB ← runBicgE A P Mon b (List.range L) st m
  let f1 := askFinished Mon rB.mon
  if f1.fin then return ⟨rB.st, f1.mon, evh ++ rB.events ++ [f1.ev], .brk⟩ else
  let rO := runOrth Mon ((List.range L).map (· + 1)) rB.st
    (List.replicate (L + 2) 0) (List.replicate (L + 2) 0)
    (List.replicate (L + 2) (List.replicate (L + 2) 0)) f1.mon
  let f2 := askFinished Mon rO.mon
  if f2.fin then
    return ⟨rO.st, f2.mon, evh ++ rB.events ++ [f1.ev] ++ rO.events ++ [f2.ev], .brk⟩
  else
  let t := mrMain L Mon rO.gp rO.tao rO.st f2.mon
  let m3 := Mon.increment (1 / 4) t.2.1
  let evsA := evh ++ rB.events ++ [f1.ev] ++ rO.events ++ [f2.ev] ++
    [t.2.2, .increment (1 / 4)]
  let cp ← checkpointStepE A P Mon b t.1 m3
  if cp.brk then return ⟨cp.st, cp.mon, evsA ++ cp.events, .brk⟩ else
  let mu := minUpdateStep cp.st
  let f3 := askFinished Mon cp.mon
  if f3.fin then return ⟨mu.st, f3.mon, evsA ++ cp.events ++ [mu.ev, f3.ev], .brk⟩ else
  let m4 := Mon.increment (1 / 4) f3.mon
  let evsB := evsA ++ cp.events ++ [mu.ev, f3.ev, .increment (1 / 4)]
  let gg := mrGammas L rO.gp rO.tao
  let rP ← runPart3E A P Mon b gg.1 gg.2 rO.gp ((List.range (L - 1)).map (· + 1)) mu.st m4
  let f4 := askFinished Mon rP.mon
  if f4.fin then return ⟨rP.st, f4.mon, evsB ++ rP.events ++ [f4.ev], .brk⟩ else
  let stC := {rP.st with u := rP.st.uu.getD 0 [], x := rP.st.xx, r := rP.st.rr.getD 0 []}
  let m5 := Mon.increment (1 / 4) f4.mon
  return ⟨stC, m5, evsB ++ rP.events ++ [f4.ev, .increment (1 / 4)], .cont⟩

/-- The fuel-bounded outer loop with fallible collaborators. -/
def outerLoopE {σ ε : Type} (L : Nat) (A P : Vec → Except ε Vec) (Mon : Monitor σ)
    (b : Vec) : Nat → SolveState → σ → Except ε (LoopRes σ)
  | 0, st, m => return ⟨st, m, [], true⟩
  | fuel + 1, st, m => do
    let r ← outerIterE L A P Mon b st m
    match r.flow with
    | .brk => return ⟨r.st, r.mon, r.events, false⟩
    | .cont => do
      let r2 ← outerLoopE L A P Mon b fuel r.st r.mon
      return ⟨r2.st, r2.mon, r.events ++ r2.events, r2.oof⟩

/-- Initialization with fallible collaborators (`r0 = b − A·x`). -/
def initStateE {ε : Type} (A : Vec → Except ε Vec) (b x : Vec) (L : Nat) :
    Except ε SolveState := do
  let ax ← A x
  return mkInit ax b x L

/-- Finalization with fallible collaborators. -/
def finalizeE {σ ε : Type} (A P : Vec → Except ε Vec) (Mon : Monitor σ) (b : Vec)
    (st : SolveState) (m : σ) : Except ε (FinRes σ) :=
  if Mon.converged m then do
    let pxx ← P st.xx
    return ⟨{st with x := pxx}, m, [.convergedQ true]⟩
  else do
    let pxx ← P st.xx
    let apxx ← A pxx
    let pxm ← P st.xMin
    let apxm ← A pxm
    return finalizeCore Mon b st m pxx apxx pxm apxm

/-- The whole solver call with fallible collaborators: any exception one
of them raises propagates unmodified; the engine adds none of its own. -/
def bicgstablE {σ ε : Type} (L : Nat) (A P : Vec → Except ε Vec) (Mon : Monitor σ)
    (b x0 : Vec) (m : σ) (fuel : Nat) : Except ε (BRes σ) := do
  let st0 ← initStateE A b x0 L
  let lr ← outerLoopE L A P Mon b fuel st0 m
  if lr.oof then return ⟨lr.st, lr.mon, lr.events, true⟩
  else do
    let f ← finalizeE A P Mon b lr.st lr.mon
    return ⟨f.st, f.mon, lr.events ++ f.events, false⟩

/-- Lift an infallible collaborator into the fallible interface. -/
def okF (ε : Type) (f : Vec → Vec) : Vec → Except ε Vec :=
  fun v => Except.ok (f v)

/-! ## Trace predicates used by the claims -/

/-- `true` on a `stop` event with the given code and message. -/
def isStopMsg (code : Int) (msg : String) : MEvent → Bool
  | .stop c r => decide (c = code) && decide (r = msg)
  | _ => false

/-- The trace contains a `stop` event with the given code and message. -/
def hasStopMsg (code : Int) (msg : String) (tr : List MEvent) : Bool :=
  tr.any (isStopMsg code msg)

/-- A stagnation event is as the source computes it: at the BiCG site the
tested product is `coefSq·‖uu[0]‖²`, at both minimal-residual sites it is
`coefSq·(squared norm of the residual-history vector recorded at the
site)`, each against `eps²·‖xx‖²`. -/
def stagOkB : MEvent → Bool
  | .stagCheck site c uuN rrN xxN res =>
    if site = 0 then decide (res = decide (c * uuN < epsSq * xxN))
    else decide (res = decide (c * rrN < epsSq * xxN))
  | _ => true

/-- A `minUpdate` event is internally consistent: the `r_norm_act` it
consumed is the squared norm of the engine's residual vector `rr[0]` at
that moment, and the new minimum is `min(old, act)` with a strict
comparison. -/
def minEvOkB : MEvent → Bool
  | .minUpdate o act nw _ rr0 =>
    decide (act = nrm2sq rr0) && decide (nw = if act < o then act else o)
  | _ => true

/-- Both pointwise event invariants. -/
def evGoodB (ev : MEvent) : Bool := stagOkB ev && minEvOkB ev

/-- `true` exactly on `minUpdate` events. -/
def isMinEv : MEvent → Bool
  | .minUpdate _ _ _ _ _ => true
  | _ => false

/-- `minChainB a tr f`: scanning the trace, the `minUpdate` events chain
the value of `r_norm_min` from `a` to `f`: each event's `oldMin` is the
running value, each event's `newMin` replaces it, no other event touches
it. -/
def minChainB (a : ℚ) : List MEvent → ℚ → Bool
  | [], f => decide (a = f)
  | .minUpdate o _ nw _ _ :: rest, f => decide (o = a) && minChainB nw rest f
  | _ :: rest, f => minChainB a rest f

/-! ## Concrete collaborators for witnesses and counterexamples -/

/-- A monitor that never asks for a recomputation and never finishes:
it drives the engine through entire outer iterations. -/
def nullMon : Monitor Unit :=
  { increment := fun _ m => m
    needCheckConvergence := fun _ m => (false, m)
    finishedWith := fun _ m => (false, m)
    finished := fun m => (false, m)
    stop := fun _ _ m => m
    incrementStag := fun m => m
    resetStag := fun m => m
    converged := fun _ => false
    updateResidual := fun _ m => m }

/-- State of the tolerance monitor: stop flag, convergence flag, last
reported residual. -/
structure TolMonSt where
  stopped : Bool
  conv : Bool
  lastRes : ℚ
  deriving DecidableEq, Repr

/-- A natural convergence monitor: always asks for the recomputation,
declares convergence when the recomputed (squared) residual norm is at
most `tol`, treats `stop` as terminal. -/
def tolMon (tol : ℚ) : Monitor TolMonSt :=
  { increment := fun _ m => m
    needCheckConvergence := fun _ m => (true, m)
    finishedWith := fun r m => if r ≤ tol then (true, {m with conv := true}) else (false, m)
    finished := fun m => (m.stopped || m.conv, m)
    stop := fun _ _ m => {m with stopped := true}
    incrementStag := fun m => m
    resetStag := fun m => m
    converged := fun m => m.conv
    updateResidual := fun r m => {m with lastRes := r} }

/-- The identity preconditioner `P = I`. -/
def idP : Vec → Vec := fun v => v

/-- 1×1 operator `A = (2)` used by several concrete runs. -/
def c5A : Vec → Vec := fun v => [2 * v.getD 0 0]

/-- 1×1 operator `A = (2)` of the claim-C1 counterexample run. -/
def c1A : Vec → Vec := fun v => [2 * v.getD 0 0]

/-- 1×1 preconditioner application `P⁻¹ = (3)` of the claim-C1
counterexample run (a non-identity preconditioner). -/
def c1P : Vec → Vec := fun v => [3 * v.getD 0 0]

/-- Claim C1 as a decidable predicate on the events of the concrete
counterexample run (`A = (2)`, `P⁻¹ = (3)`, `b = (4)`): whenever an
`x_min` update site actually assigns (`act < old`), the new `r_norm_min`
equals the true (squared) residual norm `‖b − A·P⁻¹·xxSnap‖²` of the
assigned iterate. -/
def c1claimB : MEvent → Bool
  | .minUpdate o act nw xxS _ =>
    !(decide (act < o)) || decide (nw = nrm2sq (axpby [4] (c1A (c1P xxS)) 1 (-1)))
  | _ => true

/-- The tiny perturbation `δ = 10⁻³⁰` of the claim-C7 counterexample. -/
def c7delta : ℚ := 1 / 10 ^ 30

/-- 2×2 operator `A = I` of the claim-C7 counterexample run. -/
def c7A : Vec → Vec := fun v => v

/-- 2×2 preconditioner application `P⁻¹ = diag(1, 1+δ)` of the claim-C7
counterexample run. -/
def c7P : Vec → Vec := fun v => [v.getD 0 0, (1 + c7delta) * v.getD 1 0]

/-- Claim C7 as a decidable predicate on stagnation events: at every site
the branch taken would be `|coef|·‖uu[0]‖ < eps·‖xx‖` (in squares). -/
def c7claimB : MEvent → Bool
  | .stagCheck _ c uuN _ xxN res => decide (res = decide (c * uuN < epsSq * xxN))
  | _ => true

/-- An all-empty solver state (used to witness unconditional step lemmas
at a concrete input). -/
def emptyState : SolveState :=
  { rho0 := 0
    alpha := 0
    omega := 0
    r0 := []
    r := []
    u := []
    x := []
    xx := []
    xMin := []
    rr := []
    uu := []
    rNorm := 0
    rNormAct := 0
    rNormMin := 0 }

/-- `emptyState` with `rho0 = 1` (a state whose BiCG step passes the
`rho0` check and then finds `gamma = 0`). -/
def oneState : SolveState := {emptyState with rho0 := 1}

/-! ## List and chain helper lemmas -/

theorem getD_set_ne {α : Type} (v d : α) :
    ∀ (l : List α) (i k : Nat), i ≠ k → (l.set i v).getD k d = l.getD k d
  | [], _, _, _ => rfl
  | _ :: _, 0, 0, h => absurd rfl h
  | _ :: _, 0, _ + 1, _ => rfl
  | _ :: _, _ + 1, 0, _ => rfl
  | _ :: l, i + 1, k + 1, h =>
    getD_set_ne v d l i k (fun hik => h (by rw [hik]))

theorem getD_set_self {α : Type} (v d : α) :
    ∀ (l : List α) (i : Nat), i < l.length → (l.set i v).getD i d = v
  | [], i, h => absurd h (Nat.not_lt_zero i)
  | _ :: _, 0, _ => rfl
  | _ :: l, i + 1, h => getD_set_self v d l i (Nat.lt_of_succ_lt_succ h)

theorem length_foldl_set {α : Type} (g : List α → Nat → α) :
    ∀ (is : List Nat) (l : List α),
      (is.foldl (fun acc i => acc.set i (g acc i)) l).length = l.length
  | [], _ => rfl
  | i :: is, l => by
    rw [List.foldl_cons, length_foldl_set g is, List.length_set]

theorem minChainB_append {t2 : List MEvent} :
    ∀ (t1 : List MEvent) {a b c : ℚ},
      minChainB a t1 b = true → minChainB b t2 c = true →
      minChainB a (t1 ++ t2) c = true := by
  intro t1
  induction t1 with
  | nil =>
    intro a b c h1 h2
    have hab : a = b := of_decide_eq_true h1
    rw [List.nil_append, hab]; exact h2
  | cons ev t1 ih =>
    intro a b c h1 h2
    cases ev <;> simp only [minChainB, List.cons_append, Bool.and_eq_true] at h1 ⊢ <;>
      first
        | exact ih h1 h2
        | exact ⟨h1.1, ih h1.2 h2⟩

theorem minChainB_le :
    ∀ (tr : List MEvent) {a f : ℚ},
      minChainB a tr f = true → tr.all minEvOkB = true → f ≤ a := by
  intro tr
  induction tr with
  | nil =>
    intro a f h _
    exact le_of_eq (of_decide_eq_true h).symm
  | cons ev tr ih =>
    intro a f h hall
    rw [List.all_cons, Bool.and_eq_true] at hall
    cases ev <;> simp only [minChainB, Bool.and_eq_true] at h
    case minUpdate o act nw xs rs =>
      obtain ⟨h1, h2⟩ := h
      have ho : o = a := of_decide_eq_true h1
      have hok := hall.1
      simp only [minEvOkB, Bool.and_eq_true] at hok
      have hnw : nw = if act < o then act else o := of_decide_eq_true hok.2
      have hfnw : f ≤ nw := ih h2 hall.2
      have hno : nw ≤ o := by
        rw [hnw]
        by_cases hc : act < o
        · rw [if_pos hc]; exact le_of_lt hc
        · rw [if_neg hc]
      exact le_trans (le_trans hfnw hno) (le_of_eq ho)
    all_goals exact ih h hall.2

theorem all_imp {α : Type} {p q : α → Bool} (h : ∀ a, p a = true → q a = true) :
    ∀ (l : List α), l.all p = true → l.all q = true := by
  intro l
  induction l with
  | nil => intro _; rfl
  | cons a l ih =>
    intro hl
    rw [List.all_cons, Bool.and_eq_true] at hl ⊢
    exact ⟨h a hl.1, ih hl.2⟩

/-! ## Per-function invariant lemmas

The bundle proved for each engine function: all emitted events satisfy
`evGoodB`, the emitted events chain `r_norm_min` correctly
(`minChainB`), the residual-history length is preserved, and (where
relevant) the invariant `r_norm_act = ‖rr[0]‖²` holds on exit. -/

theorem cp_props {σ : Type} (A P : Vec → Vec) (Mon : Monitor σ) (b : Vec)
    (st : SolveState) (m : σ) :
    (checkpointStep A P Mon b st m).events.all evGoodB = true ∧
    (checkpointStep A P Mon b st m).st.rNormMin = st.rNormMin ∧
    (checkpointStep A P Mon b st m).st.rr.length = st.rr.length ∧
    minChainB st.rNormMin (checkpointStep A P Mon b st m).events st.rNormMin = true ∧
    (0 < st.rr.length → st.rNormAct = nrm2sq (st.rr.getD 0 []) →
      (checkpointStep A P Mon b st m).st.rNormAct =
        nrm2sq ((checkpointStep A P Mon b st m).st.rr.getD 0 [])) := by
  unfold checkpointStep checkpointCore
  by_cases h : (Mon.needCheckConvergence st.rNorm m).1
  · simp only [h, if_true]
    refine ⟨?_, ?_, ?_, ?_, ?_⟩
    · simp [evGoodB, stagOkB, minEvOkB]
    · trivial
    · simp
    · simp [minChainB]
    · intro hlen _
      show nrm2sq (axpby b (A (P st.xx)) 1 (-1)) =
        nrm2sq ((st.rr.set 0 (axpby b (A (P st.xx)) 1 (-1))).getD 0 [])
      rw [getD_set_self _ [] st.rr 0 hlen]
  · simp only [h, if_false]
    exact ⟨by simp [evGoodB, stagOkB, minEvOkB], rfl, rfl, by simp [minChainB],
      fun _ h2 => h2⟩

theorem minUpdate_props (st : SolveState)
    (h6 : st.rNormAct = nrm2sq (st.rr.getD 0 [])) :
    evGoodB (minUpdateStep st).ev = true ∧
    minChainB st.rNormMin [(minUpdateStep st).ev] (minUpdateStep st).st.rNormMin = true ∧
    (minUpdateStep st).st.rr = st.rr := by
  unfold minUpdateStep
  by_cases hlt : st.rNormAct < st.rNormMin
  · rw [if_pos hlt]
    refine ⟨?_, ?_, rfl⟩
    · show evGoodB (.minUpdate st.rNormMin st.rNormAct st.rNormAct st.xx (st.rr.getD 0 [])) = true
      simp only [evGoodB, stagOkB, minEvOkB, Bool.true_and, Bool.and_eq_true,
        decide_eq_true_eq]
      exact ⟨h6, (if_pos hlt).symm⟩
    · show minChainB st.rNormMin
        [.minUpdate st.rNormMin st.rNormAct st.rNormAct st.xx (st.rr.getD 0 [])]
        st.rNormAct = true
      simp [minChainB]
  · rw [if_neg hlt]
    refine ⟨?_, ?_, rfl⟩
    · show evGoodB (.minUpdate st.rNormMin st.rNormAct st.rNormMin st.xx (st.rr.getD 0 [])) = true
      simp only [evGoodB, stagOkB, minEvOkB, Bool.true_and, Bool.and_eq_true,
        decide_eq_true_eq]
      exact ⟨h6, (if_neg hlt).symm⟩
    · show minChainB st.rNormMin
        [.minUpdate st.rNormMin st.rNormAct st.rNormMin st.xx (st.rr.getD 0 [])]
        st.rNormMin = true
      simp [minChainB]

theorem stepWrap_props {σ : Type} (Mon : Monitor σ) (evs : List MEvent)
    (cp : CpRes σ) (a : ℚ)
    (h1 : evs.all evGoodB = true)
    (h2 : minChainB a evs a = true)
    (h3 : cp.events.all evGoodB = true)
    (h4 : minChainB a cp.events a = true)
    (h5 : cp.st.rNormMin = a)
    (h6 : cp.st.rNormAct = nrm2sq (cp.st.rr.getD 0 [])) :
    (stepWrap Mon evs cp).events.all evGoodB = true ∧
    minChainB a (stepWrap Mon evs cp).events (stepWrap Mon evs cp).st.rNormMin = true ∧
    (stepWrap Mon evs cp).st.rr.length = cp.st.rr.length := by
  obtain ⟨cst, cmon, cevs, cbrk⟩ := cp
  simp only at h3 h4 h5 h6
  unfold stepWrap
  cases cbrk with
  | true =>
    refine ⟨?_, ?_, ?_⟩
    · show (evs ++ cevs).all evGoodB = true
      rw [List.all_append, Bool.and_eq_true]; exact ⟨h1, h3⟩
    · show minChainB a (evs ++ cevs) cst.rNormMin = true
      rw [h5]
      exact minChainB_append evs h2 h4
    · rfl
  | false =>
    obtain ⟨g1, g2, g3⟩ := minUpdate_props cst h6
    refine ⟨?_, ?_, ?_⟩
    · show (evs ++ cevs ++ [(minUpdateStep cst).ev, (askFinished Mon cmon).ev]).all
        evGoodB = true
      have hfq : evGoodB (askFinished Mon cmon).ev = true := by
        unfold askFinished; simp [evGoodB, stagOkB, minEvOkB]
      simp [List.all_append, h1, h3, g1, hfq]
    · show minChainB a (evs ++ cevs ++ [(minUpdateStep cst).ev, (askFinished Mon cmon).ev])
        (minUpdateStep cst).st.rNormMin = true
      refine minChainB_append (evs ++ cevs) (minChainB_append evs h2 h4) ?_
      have hsplit : ([(minUpdateStep cst).ev, (askFinished Mon cmon).ev] :
          List MEvent) = [(minUpdateStep cst).ev] ++ [(askFinished Mon cmon).ev] := rfl
      rw [hsplit]
      rw [h5] at g2
      refine minChainB_append [(minUpdateStep cst).ev] g2 ?_
      unfold askFinished
      simp [minChainB]
    · show (minUpdateStep cst).st.rr.length = cst.rr.length
      rw [g3]

theorem wrapcp_props {σ : Type} (A P : Vec → Vec) (Mon : Monitor σ) (b : Vec)
    (st2 : SolveState) (m1 : σ) (evs : List MEvent) (a : ℚ)
    (h1 : evs.all evGoodB = true)
    (h2 : minChainB a evs a = true)
    (h5 : st2.rNormMin = a)
    (h6 : st2.rNormAct = nrm2sq (st2.rr.getD 0 []))
    (hlen : 0 < st2.rr.length) :
    (stepWrap Mon evs (checkpointStep A P Mon b st2 m1)).events.all evGoodB = true ∧
    minChainB a (stepWrap Mon evs (checkpointStep A P Mon b st2 m1)).events
      (stepWrap Mon evs (checkpointStep A P Mon b st2 m1)).st.rNormMin = true ∧
    (stepWrap Mon evs (checkpointStep A P Mon b st2 m1)).st.rr.length = st2.rr.length := by
  obtain ⟨c1, c2, c3, c4, c5⟩ := cp_props A P Mon b st2 m1
  rw [h5] at c2 c4
  obtain ⟨w1, w2, w3⟩ := stepWrap_props Mon evs (checkpointStep A P Mon b st2 m1) a
    h1 h2 c1 c4 c2 (c5 hlen h6)
  exact ⟨w1, w2, by rw [w3, c3]⟩

theorem bicgStep_props {σ : Type} (A P : Vec → Vec) (Mon : Monitor σ) (b : Vec)
    (j : Nat) (st : SolveState) (m : σ) (hlen : 0 < st.rr.length) :
    (bicgStep A P Mon b j st m).events.all evGoodB = true ∧
    minChainB st.rNormMin (bicgStep A P Mon b j st m).events
      (bicgStep A P Mon b j st m).st.rNormMin = true ∧
    (bicgStep A P Mon b j st m).st.rr.length = st.rr.length := by
  unfold bicgStep
  by_cases h0 : st.rho0 = 0
  · rw [if_pos h0]
    exact ⟨by simp [evGoodB, stagOkB, minEvOkB], by simp [minChainB], rfl⟩
  · rw [if_neg h0]
    dsimp only
    by_cases hg : bicgGamma A P j st = 0
    · rw [if_pos hg]
      refine ⟨?_, ?_, ?_⟩
      · show ([.bicgStepStart j st.rho0, .stop (-11) "gamma is zero"] :
          List MEvent).all evGoodB = true
        simp [evGoodB, stagOkB, minEvOkB]
      · show minChainB st.rNormMin
          [.bicgStepStart j st.rho0, .stop (-11) "gamma is zero"]
          (bicgMidState A P j st).rNormMin = true
        simp [minChainB, bicgMidState]
      · show (bicgMidState A P j st).rr.length = st.rr.length
        rfl
    · rw [if_neg hg]
      have hrrA : (bicgRRA st.rr (bicgUU A P j st) j (bicgAlpha A P j st)).length
          = st.rr.length := by
        unfold bicgRRA
        exact length_foldl_set _ _ _
      have hS2min : (bicgSt2 A P j st).rNormMin = st.rNormMin := rfl
      have hS2len : (bicgSt2 A P j st).rr.length = st.rr.length := by
        unfold bicgSt2
        dsimp only
        rw [List.length_set]
        exact hrrA
      have hS2act : (bicgSt2 A P j st).rNormAct
          = nrm2sq ((bicgSt2 A P j st).rr.getD 0 []) := by
        unfold bicgSt2
        dsimp only
        rw [getD_set_ne _ [] _ (j + 1) 0 (Nat.succ_ne_zero j)]
      obtain ⟨w1, w2, w3⟩ := wrapcp_props A P Mon b (bicgSt2 A P j st)
        (if bicgStagRes A P j st then Mon.incrementStag m else Mon.resetStag m)
        [.bicgStepStart j st.rho0, bicgEvStag A P j st] st.rNormMin
        (by simp [evGoodB, stagOkB, minEvOkB, bicgEvStag, bicgStagRes])
        (by simp [minChainB, bicgEvStag])
        hS2min hS2act (by rw [hS2len]; exact hlen)
      exact ⟨w1, w2, by rw [w3, hS2len]⟩

theorem chain_single_nonmin (a : ℚ) (ev : MEvent) (h : isMinEv ev = false) :
    minChainB a [ev] a = true := by
  cases ev
  case minUpdate o act nw xs rs => simp [isMinEv] at h
  all_goals simp [minChainB]

theorem runBicg_props {σ : Type} (A P : Vec → Vec) (Mon : Monitor σ) (b : Vec) :
    ∀ (js : List Nat) (st : SolveState) (m : σ), 0 < st.rr.length →
      (runBicg A P Mon b js st m).events.all evGoodB = true ∧
      minChainB st.rNormMin (runBicg A P Mon b js st m).events
        (runBicg A P Mon b js st m).st.rNormMin = true ∧
      (runBicg A P Mon b js st m).st.rr.length = st.rr.length := by
  intro js
  induction js with
  | nil =>
    intro st m _
    exact ⟨rfl, by simp [minChainB, runBicg], rfl⟩
  | cons j rest ih =>
    intro st m hlen
    obtain ⟨s1, s2, s3⟩ := bicgStep_props A P Mon b j st m hlen
    unfold runBicg
    dsimp only
    cases hf : (bicgStep A P Mon b j st m).flow with
    | brk =>
      exact ⟨s1, s2, s3⟩
    | cont =>
      obtain ⟨t1, t2, t3⟩ := ih (bicgStep A P Mon b j st m).st
        (bicgStep A P Mon b j st m).mon (by rw [s3]; exact hlen)
      refine ⟨?_, ?_, ?_⟩
      · show ((bicgStep A P Mon b j st m).events ++
          (runBicg A P Mon b rest (bicgStep A P Mon b j st m).st
            (bicgStep A P Mon b j st m).mon).events).all evGoodB = true
        rw [List.all_append, Bool.and_eq_true]
        exact ⟨s1, t1⟩
      · exact minChainB_append _ s2 t2
      · show (runBicg A P Mon b rest (bicgStep A P Mon b j st m).st
            (bicgStep A P Mon b j st m).mon).st.rr.length = st.rr.length
        rw [t3, s3]

theorem mrOrthStep_props {σ : Type} (Mon : Monitor σ) (j : Nat) (st : SolveState)
    (sigma gp : List ℚ) (tao : List (List ℚ)) (m : σ) :
    (mrOrthStep Mon j st sigma gp tao m).events.all evGoodB = true ∧
    minChainB st.rNormMin (mrOrthStep Mon j st sigma gp tao m).events
      (mrOrthStep Mon j st sigma gp tao m).st.rNormMin = true ∧
    (mrOrthStep Mon j st sigma gp tao m).st.rr.length = st.rr.length := by
  unfold mrOrthStep
  by_cases hs : mrSigma j st sigma tao = 0
  · rw [if_pos hs]
    refine ⟨?_, ?_, ?_⟩
    · show ([.stop (-12) "a sigma value is zero"] : List MEvent).all evGoodB = true
      simp [evGoodB, stagOkB, minEvOkB]
    · show minChainB st.rNormMin [.stop (-12) "a sigma value is zero"]
        st.rNormMin = true
      simp [minChainB]
    · show (st.rr.set j (mrInner j st sigma tao).1).length = st.rr.length
      rw [List.length_set]
  · rw [if_neg hs]
    refine ⟨rfl, ?_, ?_⟩
    · show minChainB st.rNormMin [] st.rNormMin = true
      simp [minChainB]
    · show (st.rr.set j (mrInner j st sigma tao).1).length = st.rr.length
      rw [List.length_set]

theorem runOrth_props {σ : Type} (Mon : Monitor σ) :
    ∀ (js : List Nat) (st : SolveState) (sigma gp : List ℚ)
      (tao : List (List ℚ)) (m : σ),
      (runOrth Mon js st sigma gp tao m).events.all evGoodB = true ∧
      minChainB st.rNormMin (runOrth Mon js st sigma gp tao m).events
        (runOrth Mon js st sigma gp tao m).st.rNormMin = true ∧
      (runOrth Mon js st sigma gp tao m).st.rr.length = st.rr.length := by
  intro js
  induction js with
  | nil =>
    intro st sigma gp tao m
    exact ⟨rfl, by simp [minChainB, runOrth], rfl⟩
  | cons j rest ih =>
    intro st sigma gp tao m
    obtain ⟨s1, s2, s3⟩ := mrOrthStep_props Mon j st sigma gp tao m
    unfold runOrth
    dsimp only
    cases hf : (mrOrthStep Mon j st sigma gp tao m).flow with
    | brk =>
      exact ⟨s1, s2, s3⟩
    | cont =>
      obtain ⟨t1, t2, t3⟩ := ih (mrOrthStep Mon j st sigma gp tao m).st
        (mrOrthStep Mon j st sigma gp tao m).sigma
        (mrOrthStep Mon j st sigma gp tao m).gp
        (mrOrthStep Mon j st sigma gp tao m).tao
        (mrOrthStep Mon j st sigma gp tao m).mon
      refine ⟨?_, minChainB_append _ s2 t2, ?_⟩
      · show ((mrOrthStep Mon j st sigma gp tao m).events ++ _).all evGoodB = true
        rw [List.all_append, Bool.and_eq_true]
        exact ⟨s1, t1⟩
      · show (runOrth Mon rest _ _ _ _ _).st.rr.length = st.rr.length
        rw [t3, s3]

theorem mrMain_props {σ : Type} (L : Nat) (Mon : Monitor σ) (gp : List ℚ)
    (tao : List (List ℚ)) (st1 : SolveState) (m : σ) (hlen : 0 < st1.rr.length) :
    evGoodB (mrMain L Mon gp tao st1 m).2.2 = true ∧
    (mrMain L Mon gp tao st1 m).1.rNormMin = st1.rNormMin ∧
    (mrMain L Mon gp tao st1 m).1.rr.length = st1.rr.length ∧
    (mrMain L Mon gp tao st1 m).1.rNormAct =
      nrm2sq ((mrMain L Mon gp tao st1 m).1.rr.getD 0 []) := by
  refine ⟨?_, rfl, ?_, ?_⟩
  · show evGoodB (.stagCheck 1 ((mrGammas L gp tao).1.getD 1 0 ^ 2)
      (nrm2sq (st1.uu.getD 0 [])) (nrm2sq (st1.rr.getD 0 [])) (nrm2sq st1.xx)
      (decide ((mrGammas L gp tao).1.getD 1 0 ^ 2 * nrm2sq (st1.rr.getD 0 []) <
        epsSq * nrm2sq st1.xx))) = true
    simp [evGoodB, stagOkB, minEvOkB]
  · show (st1.rr.set 0 _).length = st1.rr.length
    rw [List.length_set]
  · show nrm2sq (axpy (st1.rr.getD L []) (st1.rr.getD 0 []) (-(gp.getD L 0))) =
      nrm2sq ((st1.rr.set 0
        (axpy (st1.rr.getD L []) (st1.rr.getD 0 []) (-(gp.getD L 0)))).getD 0 [])
    rw [getD_set_self _ [] st1.rr 0 hlen]

theorem mrP3mid_props {σ : Type} (Mon : Monitor σ) (gam gpp gp : List ℚ)
    (j : Nat) (st : SolveState) (m : σ) (hlen : 0 < st.rr.length) :
    evGoodB (mrP3mid Mon gam gpp gp j st m).2.2 = true ∧
    (mrP3mid Mon gam gpp gp j st m).1.rNormMin = st.rNormMin ∧
    (mrP3mid Mon gam gpp gp j st m).1.rr.length = st.rr.length ∧
    (mrP3mid Mon gam gpp gp j st m).1.rNormAct =
      nrm2sq ((mrP3mid Mon gam gpp gp j st m).1.rr.getD 0 []) := by
  refine ⟨?_, rfl, ?_, ?_⟩
  · show evGoodB (.stagCheck 2 (gpp.getD j 0 ^ 2) _ _ _
      (decide (gpp.getD j 0 ^ 2 * nrm2sq (({st with
        uu := st.uu.set 0 (axpy (st.uu.getD j []) (st.uu.getD 0 [])
          (-(gam.getD j 0)))} : SolveState).rr.getD j []) <
        epsSq * nrm2sq st.xx))) = true
    simp [evGoodB, stagOkB, minEvOkB]
  · show (st.rr.set 0 _).length = st.rr.length
    rw [List.length_set]
  · show nrm2sq (axpy (st.rr.getD j []) (st.rr.getD 0 []) (-(gp.getD j 0))) =
      nrm2sq ((st.rr.set 0
        (axpy (st.rr.getD j []) (st.rr.getD 0 []) (-(gp.getD j 0)))).getD 0 [])
    rw [getD_set_self _ [] st.rr 0 hlen]

theorem mrPart3Step_props {σ : Type} (A P : Vec → Vec) (Mon : Monitor σ) (b : Vec)
    (gam gpp gp : List ℚ) (j : Nat) (st : SolveState) (m : σ)
    (hlen : 0 < st.rr.length) :
    (mrPart3Step A P Mon b gam gpp gp j st m).events.all evGoodB = true ∧
    minChainB st.rNormMin (mrPart3Step A P Mon b gam gpp gp j st m).events
      (mrPart3Step A P Mon b gam gpp gp j st m).st.rNormMin = true ∧
    (mrPart3Step A P Mon b gam gpp gp j st m).st.rr.length = st.rr.length := by
  obtain ⟨p1, p2, p3, p4⟩ := mrP3mid_props Mon gam gpp gp j st m hlen
  unfold mrPart3Step
  obtain ⟨w1, w2, w3⟩ := wrapcp_props A P Mon b (mrP3mid Mon gam gpp gp j st m).1
    (mrP3mid Mon gam gpp gp j st m).2.1 [(mrP3mid Mon gam gpp gp j st m).2.2]
    st.rNormMin
    (by rw [List.all_cons, Bool.and_eq_true]; exact ⟨p1, rfl⟩)
    (by
      have hm : isMinEv (mrP3mid Mon gam gpp gp j st m).2.2 = false := rfl
      exact chain_single_nonmin st.rNormMin _ hm)
    p2 p4 (by rw [p3]; exact hlen)
  exact ⟨w1, w2, by rw [w3, p3]⟩

theorem runPart3_props {σ : Type} (A P : Vec → Vec) (Mon : Monitor σ) (b : Vec)
    (gam gpp gp : List ℚ) :
    ∀ (js : List Nat) (st : SolveState) (m : σ), 0 < st.rr.length →
      (runPart3 A P Mon b gam gpp gp js st m).events.all evGoodB = true ∧
      minChainB st.rNormMin (runPart3 A P Mon b gam gpp gp js st m).events
        (runPart3 A P Mon b gam gpp gp js st m).st.rNormMin = true ∧
      (runPart3 A P Mon b gam gpp gp js st m).st.rr.length = st.rr.length := by
  intro js
  induction js with
  | nil =>
    intro st m _
    exact ⟨rfl, by simp [minChainB, runPart3], rfl⟩
  | cons j rest ih =>
    intro st m hlen
    obtain ⟨s1, s2, s3⟩ := mrPart3Step_props A P Mon b gam gpp gp j st m hlen
    unfold runPart3
    dsimp only
    cases hf : (mrPart3Step A P Mon b gam gpp gp j st m).flow with
    | brk =>
      exact ⟨s1, s2, s3⟩
    | cont =>
      obtain ⟨t1, t2, t3⟩ := ih (mrPart3Step A P Mon b gam gpp gp j st m).st
        (mrPart3Step A P Mon b gam gpp gp j st m).mon (by rw [s3]; exact hlen)
      refine ⟨?_, minChainB_append _ s2 t2, ?_⟩
      · show ((mrPart3Step A P Mon b gam gpp gp j st m).events ++ _).all evGoodB = true
        rw [List.all_append, Bool.and_eq_true]
        exact ⟨s1, t1⟩
      · show (runPart3 A P Mon b gam gpp gp rest _ _).st.rr.length = st.rr.length
        rw [t3, s3]

theorem evGood_increment (q : ℚ) : evGoodB (.increment q) = true := rfl

theorem evGood_ask {σ : Type} (Mon : Monitor σ) (m : σ) :
    evGoodB (askFinished Mon m).ev = true := rfl

theorem outerIter_props {σ : Type} (L : Nat) (A P : Vec → Vec) (Mon : Monitor σ)
    (b : Vec) (st0 : SolveState) (m0 : σ) (hlen : 0 < st0.rr.length) :
    (outerIter L A P Mon b st0 m0).events.all evGoodB = true ∧
    minChainB st0.rNormMin (outerIter L A P Mon b st0 m0).events
      (outerIter L A P Mon b st0 m0).st.rNormMin = true ∧
    (outerIter L A P Mon b st0 m0).st.rr.length = st0.rr.length := by
  unfold outerIter
  dsimp only
  obtain ⟨b1, b2, b3⟩ := runBicg_props A P Mon b (List.range L)
    {st0 with rho0 := -st0.omega * st0.rho0} (Mon.increment (1 / 4) m0) hlen
  set E1 := runBicg A P Mon b (List.range L)
    {st0 with rho0 := -st0.omega * st0.rho0} (Mon.increment (1 / 4) m0) with hE1
  have hd : evGoodB (.increment (1 / 4)) = true := rfl
  have hcd : minChainB st0.rNormMin [.increment (1 / 4)] st0.rNormMin = true :=
    chain_single_nonmin _ _ rfl
  have hq1 : evGoodB (askFinished Mon E1.mon).ev = true := rfl
  have hcq1 : minChainB E1.st.rNormMin [(askFinished Mon E1.mon).ev]
      E1.st.rNormMin = true := chain_single_nonmin _ _ rfl
  by_cases h1 : (askFinished Mon E1.mon).fin = true
  · rw [if_pos h1]
    refine ⟨?_, ?_, b3⟩
    · simp [List.all_append, b1, evGood_increment, evGood_ask]
    · exact minChainB_append _ (minChainB_append _ hcd b2) hcq1
  · rw [if_neg h1]
    obtain ⟨o1, o2, o3⟩ := runOrth_props Mon ((List.range L).map (· + 1)) E1.st
      (List.replicate (L + 2) 0) (List.replicate (L + 2) 0)
      (List.replicate (L + 2) (List.replicate (L + 2) 0)) (askFinished Mon E1.mon).mon
    set E2 := runOrth Mon ((List.range L).map (· + 1)) E1.st
      (List.replicate (L + 2) 0) (List.replicate (L + 2) 0)
      (List.replicate (L + 2) (List.replicate (L + 2) 0)) (askFinished Mon E1.mon).mon
      with hE2
    have hq2 : evGoodB (askFinished Mon E2.mon).ev = true := rfl
    have hcq2 : minChainB E2.st.rNormMin [(askFinished Mon E2.mon).ev]
        E2.st.rNormMin = true := chain_single_nonmin _ _ rfl
    by_cases h2 : (askFinished Mon E2.mon).fin = true
    · rw [if_pos h2]
      refine ⟨?_, ?_, by rw [o3, b3]⟩
      · simp [List.all_append, b1, o1, evGood_increment, evGood_ask]
      · exact minChainB_append _ (minChainB_append _
          (minChainB_append _ (minChainB_append _ hcd b2) hcq1) o2) hcq2
    · rw [if_neg h2]
      have hlen2 : 0 < E2.st.rr.length := by rw [o3, b3]; exact hlen
      obtain ⟨t1, t2, t3, t4⟩ := mrMain_props L Mon E2.gp E2.tao E2.st
        (askFinished Mon E2.mon).mon hlen2
      set T := mrMain L Mon E2.gp E2.tao E2.st (askFinished Mon E2.mon).mon with hT
      obtain ⟨c1, c2, c3, c4, c5⟩ := cp_props A P Mon b T.1 (Mon.increment (1 / 4) T.2.1)
      set C := checkpointStep A P Mon b T.1 (Mon.increment (1 / 4) T.2.1) with hC
      have hc6 : C.st.rNormAct = nrm2sq (C.st.rr.getD 0 []) :=
        c5 (by rw [t3]; exact hlen2) t4
      have hgm : evGoodB T.2.2 = true := t1
      have hcm : minChainB E2.st.rNormMin [T.2.2, .increment (1 / 4)]
          E2.st.rNormMin = true := by
        have e1 : isMinEv T.2.2 = false := rfl
        exact minChainB_append [T.2.2] (chain_single_nonmin _ _ e1)
          (chain_single_nonmin _ _ rfl)
      have hcpchain : minChainB E2.st.rNormMin C.events E2.st.rNormMin = true := by
        rw [← t2]; exact c4
      by_cases h3 : C.brk = true
      · rw [if_pos h3]
        refine ⟨?_, ?_, by rw [c3, t3, o3, b3]⟩
        · simp [List.all_append, b1, o1, c1, hgm, evGood_increment, evGood_ask]
        · have hpre : minChainB st0.rNormMin
              ([MEvent.increment (1 / 4)] ++ E1.events ++ [(askFinished Mon E1.mon).ev] ++
                E2.events ++ [(askFinished Mon E2.mon).ev] ++ [T.2.2, .increment (1 / 4)])
              E2.st.rNormMin = true := by
            refine minChainB_append _ ?_ hcm
            exact minChainB_append _ (minChainB_append _
              (minChainB_append _ (minChainB_append _ hcd b2) hcq1) o2) hcq2
          have hcp2 : minChainB E2.st.rNormMin C.events C.st.rNormMin = true := by
            rw [c2, t2]
            exact hcpchain
          exact minChainB_append _ hpre hcp2
      · rw [if_neg h3]
        obtain ⟨u1, u2, u3⟩ := minUpdate_props C.st hc6
        set U := minUpdateStep C.st with hU
        have hq3 : evGoodB (askFinished Mon C.mon).ev = true := rfl
        by_cases h4 : (askFinished Mon C.mon).fin = true
        · rw [if_pos h4]
          refine ⟨?_, ?_, ?_⟩
          · simp [List.all_append, b1, o1, c1, u1, hgm, evGood_increment, evGood_ask]
          · have hpre : minChainB st0.rNormMin
                ([MEvent.increment (1 / 4)] ++ E1.events ++ [(askFinished Mon E1.mon).ev] ++
                  E2.events ++ [(askFinished Mon E2.mon).ev] ++ [T.2.2, .increment (1 / 4)] ++
                  C.events) E2.st.rNormMin = true := by
              refine minChainB_append _ ?_ hcpchain
              refine minChainB_append _ ?_ hcm
              exact minChainB_append _ (minChainB_append _
                (minChainB_append _ (minChainB_append _ hcd b2) hcq1) o2) hcq2
            have htail : minChainB E2.st.rNormMin
                [U.ev, (askFinished Mon C.mon).ev] U.st.rNormMin = true := by
              have hu : minChainB C.st.rNormMin [U.ev] U.st.rNormMin = true := u2
              rw [c2, t2] at hu
              exact minChainB_append [U.ev] hu (chain_single_nonmin _ _ rfl)
            exact minChainB_append _ hpre htail
          · show U.st.rr.length = st0.rr.length
            rw [u3, c3, t3, o3, b3]
        · rw [if_neg h4]
          have hlenU : 0 < U.st.rr.length := by
            rw [u3, c3, t3]; exact hlen2
          obtain ⟨p1, p2, p3⟩ := runPart3_props A P Mon b
            (mrGammas L E2.gp E2.tao).1 (mrGammas L E2.gp E2.tao).2 E2.gp
            ((List.range (L - 1)).map (· + 1)) U.st
            (Mon.increment (1 / 4) (askFinished Mon C.mon).mon) hlenU
          set R := runPart3 A P Mon b (mrGammas L E2.gp E2.tao).1
            (mrGammas L E2.gp E2.tao).2 E2.gp ((List.range (L - 1)).map (· + 1)) U.st
            (Mon.increment (1 / 4) (askFinished Mon C.mon).mon) with hR
          have hq4 : evGoodB (askFinished Mon R.mon).ev = true := rfl
          have hchainU : minChainB E2.st.rNormMin
              [U.ev, (askFinished Mon C.mon).ev, .increment (1 / 4)] U.st.rNormMin = true := by
            have hu : minChainB C.st.rNormMin [U.ev] U.st.rNormMin = true := u2
            rw [c2, t2] at hu
            refine minChainB_append [U.ev] hu ?_
            exact minChainB_append [(askFinished Mon C.mon).ev]
              (chain_single_nonmin _ _ rfl) (chain_single_nonmin _ _ rfl)
          have hbig : minChainB st0.rNormMin
              ((([MEvent.increment (1 / 4)] ++ E1.events ++ [(askFinished Mon E1.mon).ev] ++
                E2.events ++ [(askFinished Mon E2.mon).ev] ++ [T.2.2, .increment (1 / 4)]) ++
                C.events ++ [U.ev, (askFinished Mon C.mon).ev, .increment (1 / 4)]) ++
              R.events) R.st.rNormMin = true := by
            refine minChainB_append _ ?_ p2
            refine minChainB_append _ ?_ hchainU
            refine minChainB_append _ ?_ hcpchain
            refine minChainB_append _ ?_ hcm
            exact minChainB_append _ (minChainB_append _
              (minChainB_append _ (minChainB_append _ hcd b2) hcq1) o2) hcq2
          by_cases h5 : (askFinished Mon R.mon).fin = true
          · rw [if_pos h5]
            refine ⟨?_, ?_, by rw [p3, u3, c3, t3, o3, b3]⟩
            · simp [List.all_append, b1, o1, c1, u1, p1, hgm, evGood_increment, evGood_ask]
            · exact minChainB_append _ hbig (chain_single_nonmin _ _ rfl)
          · rw [if_neg h5]
            refine ⟨?_, ?_, by show R.st.rr.length = st0.rr.length; rw [p3, u3, c3, t3, o3, b3]⟩
            · simp [List.all_append, b1, o1, c1, u1, p1, hgm, evGood_increment, evGood_ask]
            · show minChainB st0.rNormMin _ R.st.rNormMin = true
              refine minChainB_append _ hbig ?_
              exact minChainB_append [(askFinished Mon R.mon).ev]
                (chain_single_nonmin _ _ rfl) (chain_single_nonmin _ _ rfl)

theorem outerLoop_props {σ : Type} (L : Nat) (A P : Vec → Vec) (Mon : Monitor σ)
    (b : Vec) :
    ∀ (fuel : Nat) (st : SolveState) (m : σ), 0 < st.rr.length →
      (outerLoop L A P Mon b fuel st m).events.all evGoodB = true ∧
      minChainB st.rNormMin (outerLoop L A P Mon b fuel st m).events
        (outerLoop L A P Mon b fuel st m).st.rNormMin = true ∧
      (outerLoop L A P Mon b fuel st m).st.rr.length = st.rr.length := by
  intro fuel
  induction fuel with
  | zero =>
    intro st m _
    exact ⟨rfl, by simp [minChainB, outerLoop], rfl⟩
  | succ f ih =>
    intro st m hlen
    obtain ⟨s1, s2, s3⟩ := outerIter_props L A P Mon b st m hlen
    unfold outerLoop
    dsimp only
    cases hf : (outerIter L A P Mon b st m).flow with
    | brk =>
      exact ⟨s1, s2, s3⟩
    | cont =>
      obtain ⟨t1, t2, t3⟩ := ih (outerIter L A P Mon b st m).st
        (outerIter L A P Mon b st m).mon (by rw [s3]; exact hlen)
      refine ⟨?_, minChainB_append _ s2 t2, ?_⟩
      · show ((outerIter L A P Mon b st m).events ++
          (outerLoop L A P Mon b f (outerIter L A P Mon b st m).st
            (outerIter L A P Mon b st m).mon).events).all evGoodB = true
        rw [List.all_append, Bool.and_eq_true]
        exact ⟨s1, t1⟩
      · show (outerLoop L A P Mon b f (outerIter L A P Mon b st m).st
          (outerIter L A P Mon b st m).mon).st.rr.length = st.rr.length
        rw [t3, s3]

theorem finalize_props {σ : Type} (A P : Vec → Vec) (Mon : Monitor σ) (b : Vec)
    (st : SolveState) (m : σ) :
    (finalize A P Mon b st m).events.all evGoodB = true ∧
    minChainB st.rNormMin (finalize A P Mon b st m).events
      (finalize A P Mon b st m).st.rNormMin = true ∧
    (finalize A P Mon b st m).st.rr.length = st.rr.length := by
  unfold finalize finalizeCore
  by_cases hc : Mon.converged m = true
  · rw [if_pos hc]
    exact ⟨rfl, chain_single_nonmin _ _ rfl, rfl⟩
  · rw [if_neg hc]
    by_cases hr : nrm2sq (axpby b (A (P st.xx)) 1 (-1)) <
        nrm2sq (axpby b (A (P st.xMin)) 1 (-1))
    · rw [if_pos hr]
      refine ⟨rfl, ?_, rfl⟩
      exact minChainB_append [.convergedQ false] (chain_single_nonmin _ _ rfl)
        (chain_single_nonmin _ _ rfl)
    · rw [if_neg hr]
      refine ⟨rfl, ?_, rfl⟩
      exact minChainB_append [.convergedQ false] (chain_single_nonmin _ _ rfl)
        (chain_single_nonmin _ _ rfl)

theorem initState_len (A : Vec → Vec) (b x0 : Vec) (L : Nat) :
    0 < (initState A b x0 L).rr.length := by
  show 0 < ((List.replicate (L + 1) (zeros b.length)).set 0 _).length
  rw [List.length_set, List.length_replicate]
  exact Nat.succ_pos L

theorem bicgstabl_trace_props {σ : Type} (L : Nat) (A P : Vec → Vec)
    (Mon : Monitor σ) (b x0 : Vec) (m : σ) (fuel : Nat) :
    (bicgstabl L A P Mon b x0 m fuel).trace.all evGoodB = true ∧
    minChainB (initState A b x0 L).rNormMin (bicgstabl L A P Mon b x0 m fuel).trace
      (bicgstabl L A P Mon b x0 m fuel).st.rNormMin = true := by
  obtain ⟨l1, l2, l3⟩ := outerLoop_props L A P Mon b fuel (initState A b x0 L) m
    (initState_len A b x0 L)
  unfold bicgstabl
  dsimp only
  by_cases ho : (outerLoop L A P Mon b fuel (initState A b x0 L) m).oof = true
  · rw [if_pos ho]
    exact ⟨l1, l2⟩
  · rw [if_neg ho]
    obtain ⟨f1, f2, f3⟩ := finalize_props A P Mon b
      (outerLoop L A P Mon b fuel (initState A b x0 L) m).st
      (outerLoop L A P Mon b fuel (initState A b x0 L) m).mon
    refine ⟨?_, minChainB_append _ l2 f2⟩
    show ((outerLoop L A P Mon b fuel (initState A b x0 L) m).events ++
      (finalize A P Mon b (outerLoop L A P Mon b fuel (initState A b x0 L) m).st
        (outerLoop L A P Mon b fuel (initState A b x0 L) m).mon).events).all
      evGoodB = true
    rw [List.all_append, Bool.and_eq_true]
    exact ⟨l1, f1⟩

/-! ## Stop-event and trace-shape lemmas (claims C3 and C10) -/

theorem cp_noStop {σ : Type} (A P : Vec → Vec) (Mon : Monitor σ) (b : Vec)
    (st : SolveState) (m : σ) (c : Int) (s : String) :
    (checkpointStep A P Mon b st m).events.any (isStopMsg c s) = false := by
  unfold checkpointStep checkpointCore
  by_cases h : (Mon.needCheckConvergence st.rNorm m).1 <;>
    simp [h, isStopMsg]

theorem isStop_minUpdateStep (st : SolveState) (c : Int) (s : String) :
    isStopMsg c s (minUpdateStep st).ev = false := by
  unfold minUpdateStep
  by_cases h : st.rNormAct < st.rNormMin <;> simp [h, isStopMsg]

theorem stepWrap_noStop {σ : Type} (Mon : Monitor σ) (evs : List MEvent)
    (cp : CpRes σ) (c : Int) (s : String)
    (h1 : evs.any (isStopMsg c s) = false)
    (h2 : cp.events.any (isStopMsg c s) = false) :
    hasStopMsg c s (stepWrap Mon evs cp).events = false := by
  obtain ⟨cst, cmon, cevs, cbrk⟩ := cp
  simp only at h2
  unfold stepWrap hasStopMsg
  cases cbrk with
  | true =>
    show ((evs ++ cevs).any (isStopMsg c s)) = false
    simp [List.any_append, h1, h2]
  | false =>
    show ((evs ++ cevs ++ [(minUpdateStep cst).ev, (askFinished Mon cmon).ev]).any
      (isStopMsg c s)) = false
    have hmu := isStop_minUpdateStep cst c s
    have hfq : isStopMsg c s (askFinished Mon cmon).ev = false := rfl
    simp [List.any_append, h1, h2, hmu, hfq]

theorem cp_rho0 {σ : Type} (A P : Vec → Vec) (Mon : Monitor σ) (b : Vec)
    (st : SolveState) (m : σ) :
    (checkpointStep A P Mon b st m).st.rho0 = st.rho0 := by
  unfold checkpointStep checkpointCore
  by_cases h : (Mon.needCheckConvergence st.rNorm m).1 <;> simp [h]

theorem minUpdateStep_rho0 (st : SolveState) :
    (minUpdateStep st).st.rho0 = st.rho0 := by
  unfold minUpdateStep
  by_cases h : st.rNormAct < st.rNormMin <;> simp [h]

theorem stepWrap_rho0 {σ : Type} (Mon : Monitor σ) (evs : List MEvent)
    (cp : CpRes σ) :
    (stepWrap Mon evs cp).st.rho0 = cp.st.rho0 := by
  obtain ⟨cst, cmon, cevs, cbrk⟩ := cp
  unfold stepWrap
  cases cbrk with
  | true => rfl
  | false =>
    show (minUpdateStep cst).st.rho0 = cst.rho0
    exact minUpdateStep_rho0 cst

theorem bicgStep_stop10 {σ : Type} (A P : Vec → Vec) (Mon : Monitor σ) (b : Vec)
    (j : Nat) (st : SolveState) (m : σ) :
    hasStopMsg (-10) "rho0 is zero" (bicgStep A P Mon b j st m).events =
      decide (st.rho0 = 0) := by
  unfold bicgStep
  by_cases h0 : st.rho0 = 0
  · rw [if_pos h0]
    simp [hasStopMsg, isStopMsg, h0]
  · rw [if_neg h0]
    dsimp only
    by_cases hg : bicgGamma A P j st = 0
    · rw [if_pos hg]
      simp [hasStopMsg, isStopMsg, h0]
    · rw [if_neg hg]
      rw [stepWrap_noStop Mon _ _ (-10) "rho0 is zero"
        (by simp [isStopMsg, bicgEvStag])
        (cp_noStop A P Mon b _ _ (-10) "rho0 is zero")]
      simp [h0]

theorem bicgStep_rho0_eq {σ : Type} (A P : Vec → Vec) (Mon : Monitor σ) (b : Vec)
    (j : Nat) (st : SolveState) (m : σ) :
    (bicgStep A P Mon b j st m).st.rho0 =
      if st.rho0 = 0 then st.rho0 else dotc (st.rr.getD j []) st.r0 := by
  unfold bicgStep
  by_cases h0 : st.rho0 = 0
  · rw [if_pos h0, if_pos h0]
  · rw [if_neg h0, if_neg h0]
    dsimp only
    by_cases hg : bicgGamma A P j st = 0
    · rw [if_pos hg]
      rfl
    · rw [if_neg hg]
      rw [stepWrap_rho0, cp_rho0]
      rfl

theorem bicgStep_events_shape {σ : Type} (A P : Vec → Vec) (Mon : Monitor σ)
    (b : Vec) (j : Nat) (st : SolveState) (m : σ) :
    ∃ rest, (bicgStep A P Mon b j st m).events =
      .bicgStepStart j st.rho0 :: rest := by
  unfold bicgStep
  by_cases h0 : st.rho0 = 0
  · rw [if_pos h0]
    exact ⟨_, rfl⟩
  · rw [if_neg h0]
    dsimp only
    by_cases hg : bicgGamma A P j st = 0
    · rw [if_pos hg]
      exact ⟨_, rfl⟩
    · rw [if_neg hg]
      unfold stepWrap
      by_cases hb : (checkpointStep A P Mon b (bicgSt2 A P j st)
          (if bicgStagRes A P j st then Mon.incrementStag m else Mon.resetStag m)).brk = true
      · rw [if_pos hb]
        exact ⟨_, rfl⟩
      · rw [if_neg hb]
        exact ⟨_, rfl⟩

theorem runBicg_events_shape {σ : Type} (A P : Vec → Vec) (Mon : Monitor σ)
    (b : Vec) (j : Nat) (rest : List Nat) (st : SolveState) (m : σ) :
    ∃ tail, (runBicg A P Mon b (j :: rest) st m).events =
      .bicgStepStart j st.rho0 :: tail := by
  obtain ⟨r, hr⟩ := bicgStep_events_shape A P Mon b j st m
  unfold runBicg
  dsimp only
  cases hf : (bicgStep A P Mon b j st m).flow with
  | brk => exact ⟨r, hr⟩
  | cont =>
    refine ⟨r ++ (runBicg A P Mon b rest (bicgStep A P Mon b j st m).st
      (bicgStep A P Mon b j st m).mon).events, ?_⟩
    show (bicgStep A P Mon b j st m).events ++ _ = _
    rw [hr, List.cons_append]

theorem outerIter_events_shape {σ : Type} (Lp : Nat) (A P : Vec → Vec)
    (Mon : Monitor σ) (b : Vec) (st : SolveState) (m : σ) :
    ∃ rest, (outerIter (Lp + 1) A P Mon b st m).events =
      .increment (1 / 4) :: .bicgStepStart 0 (-st.omega * st.rho0) :: rest := by
  unfold outerIter
  dsimp only
  rw [List.range_succ_eq_map]
  obtain ⟨tail, htail⟩ := runBicg_events_shape A P Mon b 0
    (List.map Nat.succ (List.range Lp)) {st with rho0 := -st.omega * st.rho0}
    (Mon.increment (1 / 4) m)
  set E1 := runBicg A P Mon b (0 :: List.map Nat.succ (List.range Lp))
    {st with rho0 := -st.omega * st.rho0} (Mon.increment (1 / 4) m) with hE1
  by_cases h1 : (askFinished Mon E1.mon).fin = true
  · rw [if_pos h1]
    exact ⟨_, by rw [htail]; rfl⟩
  · rw [if_neg h1]
    set E2 := runOrth Mon (List.map (fun x => x + 1) (0 :: List.map Nat.succ (List.range Lp)))
      E1.st (List.replicate (Lp + 1 + 2) 0) (List.replicate (Lp + 1 + 2) 0)
      (List.replicate (Lp + 1 + 2) (List.replicate (Lp + 1 + 2) 0))
      (askFinished Mon E1.mon).mon with hE2
    by_cases h2 : (askFinished Mon E2.mon).fin = true
    · rw [if_pos h2]
      exact ⟨_, by rw [htail]; rfl⟩
    · rw [if_neg h2]
      set T := mrMain (Lp + 1) Mon E2.gp E2.tao E2.st (askFinished Mon E2.mon).mon with hT
      set C := checkpointStep A P Mon b T.1 (Mon.increment (1 / 4) T.2.1) with hC
      by_cases h3 : C.brk = true
      · rw [if_pos h3]
        exact ⟨_, by rw [htail]; rfl⟩
      · rw [if_neg h3]
        set U := minUpdateStep C.st with hU
        by_cases h4 : (askFinished Mon C.mon).fin = true
        · rw [if_pos h4]
          exact ⟨_, by rw [htail]; rfl⟩
        · rw [if_neg h4]
          set R := runPart3 A P Mon b (mrGammas (Lp + 1) E2.gp E2.tao).1
            (mrGammas (Lp + 1) E2.gp E2.tao).2 E2.gp
            ((List.range (Lp + 1 - 1)).map (· + 1)) U.st
            (Mon.increment (1 / 4) (askFinished Mon C.mon).mon) with hR
          by_cases h5 : (askFinished Mon R.mon).fin = true
          · rw [if_pos h5]
            exact ⟨_, by rw [htail]; rfl⟩
          · rw [if_neg h5]
            exact ⟨_, by rw [htail]; rfl⟩

theorem outerLoop_events_shape {σ : Type} (Lp fp : Nat) (A P : Vec → Vec)
    (Mon : Monitor σ) (b : Vec) (st : SolveState) (m : σ) :
    ∃ rest, (outerLoop (Lp + 1) A P Mon b (fp + 1) st m).events =
      .increment (1 / 4) :: .bicgStepStart 0 (-st.omega * st.rho0) :: rest := by
  obtain ⟨r, hr⟩ := outerIter_events_shape Lp A P Mon b st m
  unfold outerLoop
  dsimp only
  cases hf : (outerIter (Lp + 1) A P Mon b st m).flow with
  | brk => exact ⟨r, hr⟩
  | cont => exact ⟨_, by rw [hr]; rfl⟩

theorem bicgstabl_events_shape {σ : Type} (Lp fp : Nat) (A P : Vec → Vec)
    (Mon : Monitor σ) (b x0 : Vec) (m : σ) :
    ∃ rest, (bicgstabl (Lp + 1) A P Mon b x0 m (fp + 1)).trace =
      .increment (1 / 4) :: .bicgStepStart 0 (-1) :: rest := by
  obtain ⟨r, hr⟩ := outerLoop_events_shape Lp fp A P Mon b (initState A b x0 (Lp + 1)) m
  have he : -(initState A b x0 (Lp + 1)).omega * (initState A b x0 (Lp + 1)).rho0 =
      (-1 : ℚ) := by
    show -(1 : ℚ) * 1 = -1
    norm_num
  rw [he] at hr
  unfold bicgstabl
  dsimp only
  by_cases ho : (outerLoop (Lp + 1) A P Mon b (fp + 1) (initState A b x0 (Lp + 1)) m).oof
      = true
  · rw [if_pos ho]
    exact ⟨r, hr⟩
  · rw [if_neg ho]
    exact ⟨_, by rw [hr]; rfl⟩

/-! ## The claims -/

/-- Claim C9: `bicgstab1(A, x, b, monitor, P)` produces exactly the same
result — the same final solver state (including `x`), the same monitor
state, and the same sequence of monitor interactions (the trace) — as
`bicgstabl` instantiated with `L = 1` on the same inputs.  The source's
`bicgstab1` is a direct forwarding call. -/
theorem claim_C9 {σ : Type} (A : Vec → Vec) (x b : Vec) (Mon : Monitor σ)
    (P : Vec → Vec) (m : σ) (fuel : Nat) :
    bicgstab1 A x b Mon P m fuel = bicgstabl 1 A P Mon b x m fuel := rfl

/-- Claim C1 (amended): at every `x_min` update site, the `r_norm_act`
consumed is the squared norm of the engine's residual vector `rr[0]` at
that moment (which is the recomputed true residual only when the
checkpoint had just fired, and the recurrence-propagated vector
otherwise), and `r_norm_min` is replaced by exactly that value when it is
smaller.  The original claim — that `r_norm_min` always equals the true
residual norm `‖b − A·P⁻¹·x_min‖` of `x_min` — fails on the code (see the
counterexample): sites reached with `needCheckConvergence = false` store
the recurrence value, which differs from the true residual. -/
theorem claim_C1 {σ : Type} (L : Nat) (A P : Vec → Vec) (Mon : Monitor σ)
    (b x0 : Vec) (m : σ) (fuel : Nat) :
    (bicgstabl L A P Mon b x0 m fuel).trace.all minEvOkB = true := by
  have h := (bicgstabl_trace_props L A P Mon b x0 m fuel).1
  refine all_imp (fun ev hev => ?_) _ h
  rw [evGoodB, Bool.and_eq_true] at hev
  exact hev.2

unseal Rat.add Rat.mul Rat.sub Rat.inv in
/-- Claim C1, counterexample to the claim as stated: in the concrete run
with `A = (2)`, `P⁻¹ = (3)`, `b = (4)`, `x0 = (1)` and a monitor that
never requests the checkpoint, the first `x_min` assignment stores
`r_norm_min = 0` (the recurrence value) while the true residual of the
assigned iterate `xx = (4/3)` is `‖4 − 6·(4/3)‖² = 16 ≠ 0`. -/
theorem claim_C1_counterexample :
    ((bicgstabl 1 c1A c1P nullMon [4] [1] () 1).trace.all c1claimB) = false := by
  decide

/-- Claim C7 (amended): the engine calls `incrementStag` iff the site's
stagnation inequality holds, with `|alpha|·‖uu[0]‖ < eps·‖xx‖` (in
squares) at the BiCG site, but with `|gamma[1]|·‖rr[0]‖` (line 212) and
`|gamma''[j]|·‖rr[j]‖` (line 264) — the residual-history norms, not
`‖uu[0]‖` — at the two minimal-residual sites.  The original claim's "with
`gamma[1]` in place of `alpha` in the same inequality" is false on the
code: the vector whose norm is multiplied changes as well (see the
counterexample). -/
theorem claim_C7 {σ : Type} (L : Nat) (A P : Vec → Vec) (Mon : Monitor σ)
    (b x0 : Vec) (m : σ) (fuel : Nat) :
    (bicgstabl L A P Mon b x0 m fuel).trace.all stagOkB = true := by
  have h := (bicgstabl_trace_props L A P Mon b x0 m fuel).1
  refine all_imp (fun ev hev => ?_) _ h
  rw [evGoodB, Bool.and_eq_true] at hev
  exact hev.1

unseal Rat.add Rat.mul Rat.sub Rat.inv in
/-- Claim C7, counterexample to the claim as stated: with `A = I`,
`P⁻¹ = diag(1, 1+10⁻³⁰)`, `b = (1,1)`, `x0 = 0`, the first
minimal-residual stagnation test has `|gamma[1]|·‖rr[0]‖ < eps·‖xx‖`
(the engine calls `incrementStag`) while `|gamma[1]|·‖uu[0]‖ ≈ ‖r0‖` is
far above the threshold, so the claim's predicted branch (`resetStag`)
differs from the branch taken. -/
theorem claim_C7_counterexample :
    ((bicgstabl 1 c7A c7P nullMon [1, 1] [0, 0] () 1).trace.all c7claimB) = false := by
  decide

/-- Claim C6: `r_norm_min` is non-increasing across the entire run.  It is
initialized to `‖r0‖² = ‖b − A·x0‖²`; the trace's `minUpdate` events chain
its successive values (`minChainB`) and each replaces it only by a
strictly smaller `r_norm_act` (`minEvOkB`); consequently the final value
is at most the initial one. -/
theorem claim_C6 {σ : Type} (L : Nat) (A P : Vec → Vec) (Mon : Monitor σ)
    (b x0 : Vec) (m : σ) (fuel : Nat) :
    (initState A b x0 L).rNormMin = nrm2sq (axpby b (A x0) 1 (-1)) ∧
    minChainB (initState A b x0 L).rNormMin
      (bicgstabl L A P Mon b x0 m fuel).trace
      (bicgstabl L A P Mon b x0 m fuel).st.rNormMin = true ∧
    (bicgstabl L A P Mon b x0 m fuel).trace.all minEvOkB = true ∧
    (bicgstabl L A P Mon b x0 m fuel).st.rNormMin ≤ (initState A b x0 L).rNormMin := by
  obtain ⟨h1, h2⟩ := bicgstabl_trace_props L A P Mon b x0 m fuel
  have hmin : (bicgstabl L A P Mon b x0 m fuel).trace.all minEvOkB = true := by
    refine all_imp (fun ev hev => ?_) _ h1
    rw [evGoodB, Bool.and_eq_true] at hev
    exact hev.2
  exact ⟨rfl, h2, hmin, minChainB_le _ h2 hmin⟩

/-- Claim C10: on the first lookahead step of the first outer iteration
the checked `rho0` equals `−1` — the state is initialized with
`rho0 = omega = 1` and the outer loop starts with `rho0 ← −omega·rho0` —
so the `"rho0 is zero"` branch cannot fire there; that branch fires in a
step iff the step's entry `rho0` is exactly `0`, the entry `rho0` of the
first step of any outer iteration is `−omega·rho0` (zero only when
`omega` or the carried `rho0` is zero), and a completed step carries out
`rho0 = rho1` (the step's freshly computed inner product). -/
theorem claim_C10 :
    (∀ (A : Vec → Vec) (b x0 : Vec) (L : Nat),
      (initState A b x0 L).rho0 = 1 ∧ (initState A b x0 L).omega = 1) ∧
    (∀ (σ : Type) (A P : Vec → Vec) (Mon : Monitor σ) (b x0 : Vec) (m : σ)
        (Lp fp : Nat),
      ∃ rest, (bicgstabl (Lp + 1) A P Mon b x0 m (fp + 1)).trace =
        .increment (1 / 4) :: .bicgStepStart 0 (-1) :: rest) ∧
    (∀ (σ : Type) (A P : Vec → Vec) (Mon : Monitor σ) (b : Vec) (j : Nat)
        (st : SolveState) (m : σ),
      hasStopMsg (-10) "rho0 is zero" (bicgStep A P Mon b j st m).events =
        decide (st.rho0 = 0)) ∧
    (∀ (σ : Type) (A P : Vec → Vec) (Mon : Monitor σ) (b : Vec) (Lp : Nat)
        (st : SolveState) (m : σ),
      ∃ rest, (outerIter (Lp + 1) A P Mon b st m).events =
        .increment (1 / 4) :: .bicgStepStart 0 (-st.omega * st.rho0) :: rest) ∧
    (∀ (σ : Type) (A P : Vec → Vec) (Mon : Monitor σ) (b : Vec) (j : Nat)
        (st : SolveState) (m : σ),
      (bicgStep A P Mon b j st m).st.rho0 =
        if st.rho0 = 0 then st.rho0 else dotc (st.rr.getD j []) st.r0) := by
  refine ⟨fun A b x0 L => ⟨rfl, rfl⟩, ?_, ?_, ?_, ?_⟩
  · intro σ A P Mon b x0 m Lp fp
    exact bicgstabl_events_shape Lp fp A P Mon b x0 m
  · intro σ A P Mon b j st m
    exact bicgStep_stop10 A P Mon b j st m
  · intro σ A P Mon b Lp st m
    exact outerIter_events_shape Lp A P Mon b st m
  · intro σ A P Mon b j st m
    exact bicgStep_rho0_eq A P Mon b j st m

/-- Claim C3: the three breakdown branches call `monitor.stop` with the
fixed codes and the exact reason strings — `(-10, "rho0 is zero")` when
the previous `rho0` is zero, `(-11, "gamma is zero")` when
`gamma = ⟨uu[j+1], r0⟩` is zero, `(-12, "a sigma value is zero")` when
the pivot `sigma[j] = ⟨rr[j], rr[j]⟩` is zero — each such step performs
nothing further and signals `break`, and the enclosing sub-phase loop
runs no further steps after a `break` (no internal retry or recovery). -/
theorem claim_C3 :
    (∀ (σ : Type) (A P : Vec → Vec) (Mon : Monitor σ) (b : Vec) (j : Nat)
        (st : SolveState) (m : σ), st.rho0 = 0 →
      bicgStep A P Mon b j st m =
        ⟨st, Mon.stop (-10) "rho0 is zero" m,
          [.bicgStepStart j st.rho0, .stop (-10) "rho0 is zero"], .brk⟩) ∧
    (∀ (σ : Type) (A P : Vec → Vec) (Mon : Monitor σ) (b : Vec) (j : Nat)
        (st : SolveState) (m : σ), st.rho0 ≠ 0 → bicgGamma A P j st = 0 →
      bicgStep A P Mon b j st m =
        ⟨bicgMidState A P j st, Mon.stop (-11) "gamma is zero" m,
          [.bicgStepStart j st.rho0, .stop (-11) "gamma is zero"], .brk⟩) ∧
    (∀ (σ : Type) (Mon : Monitor σ) (j : Nat) (st : SolveState)
        (sigma gp : List ℚ) (tao : List (List ℚ)) (m : σ),
        mrSigma j st sigma tao = 0 →
      mrOrthStep Mon j st sigma gp tao m =
        ⟨{st with rr := st.rr.set j (mrInner j st sigma tao).1},
          sigma.set j (mrSigma j st sigma tao), gp, (mrInner j st sigma tao).2,
          Mon.stop (-12) "a sigma value is zero" m,
          [.stop (-12) "a sigma value is zero"], .brk⟩) ∧
    (∀ (σ : Type) (A P : Vec → Vec) (Mon : Monitor σ) (b : Vec) (j : Nat)
        (rest : List Nat) (st : SolveState) (m : σ),
        (bicgStep A P Mon b j st m).flow = .brk →
      runBicg A P Mon b (j :: rest) st m =
        ⟨(bicgStep A P Mon b j st m).st, (bicgStep A P Mon b j st m).mon,
          (bicgStep A P Mon b j st m).events, .brk⟩) ∧
    (∀ (σ : Type) (Mon : Monitor σ) (j : Nat) (rest : List Nat) (st : SolveState)
        (sigma gp : List ℚ) (tao : List (List ℚ)) (m : σ),
        (mrOrthStep Mon j st sigma gp tao m).flow = .brk →
      runOrth Mon (j :: rest) st sigma gp tao m =
        ⟨(mrOrthStep Mon j st sigma gp tao m).st,
          (mrOrthStep Mon j st sigma gp tao m).sigma,
          (mrOrthStep Mon j st sigma gp tao m).gp,
          (mrOrthStep Mon j st sigma gp tao m).tao,
          (mrOrthStep Mon j st sigma gp tao m).mon,
          (mrOrthStep Mon j st sigma gp tao m).events, .brk⟩) := by
  refine ⟨?_, ?_, ?_, ?_, ?_⟩
  · intro σ A P Mon b j st m h0
    unfold bicgStep
    rw [if_pos h0]
  · intro σ A P Mon b j st m h0 hg
    unfold bicgStep
    rw [if_neg h0]
    dsimp only
    rw [if_pos hg]
  · intro σ Mon j st sigma gp tao m hs
    unfold mrOrthStep
    dsimp only
    rw [if_pos hs]
  · intro σ A P Mon b j rest st m hbrk
    unfold runBicg
    dsimp only
    rw [hbrk]
  · intro σ Mon j rest st sigma gp tao m hbrk
    unfold runOrth
    dsimp only
    rw [hbrk]

/-- Claim C3, witness: concrete instantiations of each breakdown branch
(and of the loop cut-off) at explicit states. -/
theorem claim_C3_witness :
    (emptyState.rho0 = 0 ∧
      bicgStep idP idP nullMon [] 0 emptyState () =
        ⟨emptyState, nullMon.stop (-10) "rho0 is zero" (),
          [.bicgStepStart 0 emptyState.rho0, .stop (-10) "rho0 is zero"], .brk⟩) ∧
    (oneState.rho0 ≠ 0 ∧ bicgGamma idP idP 0 oneState = 0 ∧
      bicgStep idP idP nullMon [] 0 oneState () =
        ⟨bicgMidState idP idP 0 oneState, nullMon.stop (-11) "gamma is zero" (),
          [.bicgStepStart 0 oneState.rho0, .stop (-11) "gamma is zero"], .brk⟩) ∧
    (mrSigma 1 emptyState [] [] = 0 ∧
      mrOrthStep nullMon 1 emptyState [] [] [] () =
        ⟨{emptyState with rr := emptyState.rr.set 1 (mrInner 1 emptyState [] []).1},
          List.set [] 1 (mrSigma 1 emptyState [] []), [], (mrInner 1 emptyState [] []).2,
          nullMon.stop (-12) "a sigma value is zero" (),
          [.stop (-12) "a sigma value is zero"], .brk⟩) ∧
    ((bicgStep idP idP nullMon [] 0 emptyState ()).flow = .brk ∧
      runBicg idP idP nullMon [] [0, 1] emptyState () =
        ⟨(bicgStep idP idP nullMon [] 0 emptyState ()).st,
          (bicgStep idP idP nullMon [] 0 emptyState ()).mon,
          (bicgStep idP idP nullMon [] 0 emptyState ()).events, .brk⟩) ∧
    ((mrOrthStep nullMon 1 emptyState [] [] [] ()).flow = .brk ∧
      runOrth nullMon [1, 2] emptyState [] [] [] () =
        ⟨(mrOrthStep nullMon 1 emptyState [] [] [] ()).st,
          (mrOrthStep nullMon 1 emptyState [] [] [] ()).sigma,
          (mrOrthStep nullMon 1 emptyState [] [] [] ()).gp,
          (mrOrthStep nullMon 1 emptyState [] [] [] ()).tao,
          (mrOrthStep nullMon 1 emptyState [] [] [] ()).mon,
          (mrOrthStep nullMon 1 emptyState [] [] [] ()).events, .brk⟩) := by
  refine ⟨⟨rfl, ?_⟩, ⟨?_, rfl, ?_⟩, ⟨rfl, ?_⟩, ⟨rfl, ?_⟩, ⟨rfl, ?_⟩⟩
  · exact claim_C3.1 Unit idP idP nullMon [] 0 emptyState () rfl
  · intro h
    exact absurd h (by norm_num [emptyState, oneState])
  · exact claim_C3.2.1 Unit idP idP nullMon [] 0 oneState ()
      (by intro h; exact absurd h (by norm_num [emptyState, oneState])) rfl
  · exact claim_C3.2.2.1 Unit nullMon 1 emptyState [] [] [] () rfl
  · exact claim_C3.2.2.2.1 Unit idP idP nullMon [] 0 [1] emptyState () rfl
  · exact claim_C3.2.2.2.2 Unit nullMon 1 [2] emptyState [] [] [] () rfl

/-- Claim C4: at the residual-recomputation checkpoint (the identical
block used at all three call sites through `checkpointStep`), whenever
`monitor.needCheckConvergence(r_norm)` answers `true`, the engine
overwrites `rr[0]` with `b − A·P⁻¹·xx` computed from the definition, sets
`r_norm_act` to its (squared) norm, and asks the Monitor to evaluate
convergence against exactly that value via `monitor.finished(r_norm_act)`
(whose answer becomes the site's `break` decision). -/
theorem claim_C4 {σ : Type} (A P : Vec → Vec) (Mon : Monitor σ) (b : Vec)
    (st : SolveState) (m : σ)
    (h : (Mon.needCheckConvergence st.rNorm m).1 = true) :
    checkpointStep A P Mon b st m =
      ⟨{st with
          rr := st.rr.set 0 (axpby b (A (P st.xx)) 1 (-1))
          rNormAct := nrm2sq (axpby b (A (P st.xx)) 1 (-1))},
        (Mon.finishedWith (nrm2sq (axpby b (A (P st.xx)) 1 (-1)))
          (Mon.needCheckConvergence st.rNorm m).2).2,
        [.needCheck st.rNorm true,
          .finishedWith (nrm2sq (axpby b (A (P st.xx)) 1 (-1)))
            (Mon.finishedWith (nrm2sq (axpby b (A (P st.xx)) 1 (-1)))
              (Mon.needCheckConvergence st.rNorm m).2).1],
        (Mon.finishedWith (nrm2sq (axpby b (A (P st.xx)) 1 (-1)))
          (Mon.needCheckConvergence st.rNorm m).2).1⟩ := by
  unfold checkpointStep checkpointCore
  dsimp only
  rw [if_pos h]

/-- Claim C4, witness: the checkpoint at a concrete state with a monitor
whose `needCheckConvergence` always answers `true`. -/
theorem claim_C4_witness :
    (((tolMon (1 / 10 ^ 10)).needCheckConvergence emptyState.rNorm
      ⟨false, false, 0⟩).1 = true) ∧
    checkpointStep c5A idP (tolMon (1 / 10 ^ 10)) [2] emptyState ⟨false, false, 0⟩ =
      ⟨{emptyState with
          rr := emptyState.rr.set 0 (axpby [2] (c5A (idP emptyState.xx)) 1 (-1))
          rNormAct := nrm2sq (axpby [2] (c5A (idP emptyState.xx)) 1 (-1))},
        ((tolMon (1 / 10 ^ 10)).finishedWith
          (nrm2sq (axpby [2] (c5A (idP emptyState.xx)) 1 (-1)))
          ((tolMon (1 / 10 ^ 10)).needCheckConvergence emptyState.rNorm
            ⟨false, false, 0⟩).2).2,
        [.needCheck emptyState.rNorm true,
          .finishedWith (nrm2sq (axpby [2] (c5A (idP emptyState.xx)) 1 (-1)))
            ((tolMon (1 / 10 ^ 10)).finishedWith
              (nrm2sq (axpby [2] (c5A (idP emptyState.xx)) 1 (-1)))
              ((tolMon (1 / 10 ^ 10)).needCheckConvergence emptyState.rNorm
                ⟨false, false, 0⟩).2).1],
        ((tolMon (1 / 10 ^ 10)).finishedWith
          (nrm2sq (axpby [2] (c5A (idP emptyState.xx)) 1 (-1)))
          ((tolMon (1 / 10 ^ 10)).needCheckConvergence emptyState.rNorm
            ⟨false, false, 0⟩).2).1⟩ :=
  ⟨rfl, claim_C4 c5A idP (tolMon (1 / 10 ^ 10)) [2] emptyState ⟨false, false, 0⟩ rfl⟩

/-- Claim C2: on a return that was not cut off by fuel, if the Monitor
reports convergence then the returned `x` is `P⁻¹·xx` (and the monitor is
untouched by finalization); otherwise the engine recomputes the true
(squared) residual norms of both the final `xx` and the best-seen
`x_min`, returns whichever preconditioned iterate has the strictly
smaller one (ties go to `x_min`), and reports that norm through
`monitor.updateResidual` — so every return leaves `x` populated with a
defined iterate. -/
theorem claim_C2 {σ : Type} (L : Nat) (A P : Vec → Vec) (Mon : Monitor σ)
    (b x0 : Vec) (m : σ) (fuel : Nat)
    (h : (outerLoop L A P Mon b fuel (initState A b x0 L) m).oof = false) :
    (bicgstabl L A P Mon b x0 m fuel).outOfFuel = false ∧
    (Mon.converged (outerLoop L A P Mon b fuel (initState A b x0 L) m).mon = true →
      (bicgstabl L A P Mon b x0 m fuel).st.x =
        P (outerLoop L A P Mon b fuel (initState A b x0 L) m).st.xx ∧
      (bicgstabl L A P Mon b x0 m fuel).mon =
        (outerLoop L A P Mon b fuel (initState A b x0 L) m).mon ∧
      (bicgstabl L A P Mon b x0 m fuel).trace =
        (outerLoop L A P Mon b fuel (initState A b x0 L) m).events ++
          [.convergedQ true]) ∧
    (Mon.converged (outerLoop L A P Mon b fuel (initState A b x0 L) m).mon = false →
      ((bicgstabl L A P Mon b x0 m fuel).st.x =
        if nrm2sq (axpby b
            (A (P (outerLoop L A P Mon b fuel (initState A b x0 L) m).st.xx)) 1 (-1)) <
           nrm2sq (axpby b
            (A (P (outerLoop L A P Mon b fuel (initState A b x0 L) m).st.xMin)) 1 (-1))
        then P (outerLoop L A P Mon b fuel (initState A b x0 L) m).st.xx
        else P (outerLoop L A P Mon b fuel (initState A b x0 L) m).st.xMin) ∧
      (bicgstabl L A P Mon b x0 m fuel).mon = Mon.updateResidual
        (if nrm2sq (axpby b
            (A (P (outerLoop L A P Mon b fuel (initState A b x0 L) m).st.xx)) 1 (-1)) <
            nrm2sq (axpby b
            (A (P (outerLoop L A P Mon b fuel (initState A b x0 L) m).st.xMin)) 1 (-1))
         then nrm2sq (axpby b
            (A (P (outerLoop L A P Mon b fuel (initState A b x0 L) m).st.xx)) 1 (-1))
         else nrm2sq (axpby b
            (A (P (outerLoop L A P Mon b fuel (initState A b x0 L) m).st.xMin)) 1 (-1)))
        (outerLoop L A P Mon b fuel (initState A b x0 L) m).mon ∧
      (bicgstabl L A P Mon b x0 m fuel).trace =
        (outerLoop L A P Mon b fuel (initState A b x0 L) m).events ++
          [.convergedQ false, .updateResidual
            (if nrm2sq (axpby b
                (A (P (outerLoop L A P Mon b fuel (initState A b x0 L) m).st.xx)) 1 (-1)) <
                nrm2sq (axpby b
                (A (P (outerLoop L A P Mon b fuel (initState A b x0 L) m).st.xMin)) 1 (-1))
             then nrm2sq (axpby b
                (A (P (outerLoop L A P Mon b fuel (initState A b x0 L) m).st.xx)) 1 (-1))
             else nrm2sq (axpby b
                (A (P (outerLoop L A P Mon b fuel (initState A b x0 L) m).st.xMin)) 1 (-1)))]) := by
  have hne : ¬((outerLoop L A P Mon b fuel (initState A b x0 L) m).oof = true) := by
    rw [h]
    exact Bool.false_ne_true
  unfold bicgstabl
  dsimp only
  rw [if_neg hne]
  unfold finalize finalizeCore
  refine ⟨rfl, ?_, ?_⟩
  · intro hc
    rw [if_pos hc]
    exact ⟨rfl, rfl, rfl⟩
  · intro hc
    have hnc : ¬(Mon.converged
        (outerLoop L A P Mon b fuel (initState A b x0 L) m).mon = true) := by
      rw [hc]
      exact Bool.false_ne_true
    rw [if_neg hnc]
    dsimp only
    by_cases hr : nrm2sq (axpby b
        (A (P (outerLoop L A P Mon b fuel (initState A b x0 L) m).st.xx)) 1 (-1)) <
        nrm2sq (axpby b
        (A (P (outerLoop L A P Mon b fuel (initState A b x0 L) m).st.xMin)) 1 (-1))
    · simp only [if_pos hr]
      refine ⟨?_, ?_, ?_⟩ <;> (first | rfl | trivial)
    · simp only [if_neg hr]
      refine ⟨?_, ?_, ?_⟩ <;> (first | rfl | trivial)

unseal Rat.add Rat.mul Rat.sub Rat.inv in
/-- Claim C2, witness: a concrete convergent run (`A = (2)`, `P = I`,
`b = (2)`, `x0 = (0)`, natural tolerance monitor) exits the loop before
its fuel is spent, and the theorem applies to it. -/
theorem claim_C2_witness :
    ((outerLoop 1 c5A idP (tolMon (1 / 10 ^ 10)) [2] 3
      (initState c5A [2] [0] 1) ⟨false, false, 0⟩).oof = false) ∧
    ((bicgstabl 1 c5A idP (tolMon (1 / 10 ^ 10)) [2] [0] ⟨false, false, 0⟩ 3).outOfFuel
        = false ∧
      ((tolMon (1 / 10 ^ 10)).converged (outerLoop 1 c5A idP (tolMon (1 / 10 ^ 10)) [2] 3
          (initState c5A [2] [0] 1) ⟨false, false, 0⟩).mon = true →
        (bicgstabl 1 c5A idP (tolMon (1 / 10 ^ 10)) [2] [0] ⟨false, false, 0⟩ 3).st.x =
          idP (outerLoop 1 c5A idP (tolMon (1 / 10 ^ 10)) [2] 3
            (initState c5A [2] [0] 1) ⟨false, false, 0⟩).st.xx ∧
        (bicgstabl 1 c5A idP (tolMon (1 / 10 ^ 10)) [2] [0] ⟨false, false, 0⟩ 3).mon =
          (outerLoop 1 c5A idP (tolMon (1 / 10 ^ 10)) [2] 3
            (initState c5A [2] [0] 1) ⟨false, false, 0⟩).mon ∧
        (bicgstabl 1 c5A idP (tolMon (1 / 10 ^ 10)) [2] [0] ⟨false, false, 0⟩ 3).trace =
          (outerLoop 1 c5A idP (tolMon (1 / 10 ^ 10)) [2] 3
            (initState c5A [2] [0] 1) ⟨false, false, 0⟩).events ++ [.convergedQ true]) ∧
      ((tolMon (1 / 10 ^ 10)).converged (outerLoop 1 c5A idP (tolMon (1 / 10 ^ 10)) [2] 3
          (initState c5A [2] [0] 1) ⟨false, false, 0⟩).mon = false →
        ((bicgstabl 1 c5A idP (tolMon (1 / 10 ^ 10)) [2] [0] ⟨false, false, 0⟩ 3).st.x =
          if nrm2sq (axpby [2] (c5A (idP (outerLoop 1 c5A idP (tolMon (1 / 10 ^ 10)) [2] 3
              (initState c5A [2] [0] 1) ⟨false, false, 0⟩).st.xx)) 1 (-1)) <
             nrm2sq (axpby [2] (c5A (idP (outerLoop 1 c5A idP (tolMon (1 / 10 ^ 10)) [2] 3
              (initState c5A [2] [0] 1) ⟨false, false, 0⟩).st.xMin)) 1 (-1))
          then idP (outerLoop 1 c5A idP (tolMon (1 / 10 ^ 10)) [2] 3
            (initState c5A [2] [0] 1) ⟨false, false, 0⟩).st.xx
          else idP (outerLoop 1 c5A idP (tolMon (1 / 10 ^ 10)) [2] 3
            (initState c5A [2] [0] 1) ⟨false, false, 0⟩).st.xMin) ∧
        (bicgstabl 1 c5A idP (tolMon (1 / 10 ^ 10)) [2] [0] ⟨false, false, 0⟩ 3).mon =
          (tolMon (1 / 10 ^ 10)).updateResidual
          (if nrm2sq (axpby [2] (c5A (idP (outerLoop 1 c5A idP (tolMon (1 / 10 ^ 10)) [2] 3
              (initState c5A [2] [0] 1) ⟨false, false, 0⟩).st.xx)) 1 (-1)) <
              nrm2sq (axpby [2] (c5A (idP (outerLoop 1 c5A idP (tolMon (1 / 10 ^ 10)) [2] 3
              (initState c5A [2] [0] 1) ⟨false, false, 0⟩).st.xMin)) 1 (-1))
           then nrm2sq (axpby [2] (c5A (idP (outerLoop 1 c5A idP (tolMon (1 / 10 ^ 10)) [2] 3
              (initState c5A [2] [0] 1) ⟨false, false, 0⟩).st.xx)) 1 (-1))
           else nrm2sq (axpby [2] (c5A (idP (outerLoop 1 c5A idP (tolMon (1 / 10 ^ 10)) [2] 3
              (initState c5A [2] [0] 1) ⟨false, false, 0⟩).st.xMin)) 1 (-1)))
          (outerLoop 1 c5A idP (tolMon (1 / 10 ^ 10)) [2] 3
            (initState c5A [2] [0] 1) ⟨false, false, 0⟩).mon ∧
        (bicgstabl 1 c5A idP (tolMon (1 / 10 ^ 10)) [2] [0] ⟨false, false, 0⟩ 3).trace =
          (outerLoop 1 c5A idP (tolMon (1 / 10 ^ 10)) [2] 3
            (initState c5A [2] [0] 1) ⟨false, false, 0⟩).events ++
          [.convergedQ false, .updateResidual
            (if nrm2sq (axpby [2] (c5A (idP (outerLoop 1 c5A idP (tolMon (1 / 10 ^ 10)) [2] 3
                (initState c5A [2] [0] 1) ⟨false, false, 0⟩).st.xx)) 1 (-1)) <
                nrm2sq (axpby [2] (c5A (idP (outerLoop 1 c5A idP (tolMon (1 / 10 ^ 10)) [2] 3
                (initState c5A [2] [0] 1) ⟨false, false, 0⟩).st.xMin)) 1 (-1))
             then nrm2sq (axpby [2] (c5A (idP (outerLoop 1 c5A idP (tolMon (1 / 10 ^ 10)) [2] 3
                (initState c5A [2] [0] 1) ⟨false, false, 0⟩).st.xx)) 1 (-1))
             else nrm2sq (axpby [2] (c5A (idP (outerLoop 1 c5A idP (tolMon (1 / 10 ^ 10)) [2] 3
                (initState c5A [2] [0] 1) ⟨false, false, 0⟩).st.xMin)) 1 (-1)))])) :=
  ⟨by decide, claim_C2 1 c5A idP (tolMon (1 / 10 ^ 10)) [2] [0] ⟨false, false, 0⟩ 3
    (by decide)⟩

unseal Rat.add Rat.mul Rat.sub Rat.inv in
/-- Claim C5 (code bug): starting from the exact solution (`A = (2)`,
`b = (2)`, `x* = (1)`, `P = I`, natural tolerance monitor) the engine
does not converge immediately: the zero initial residual makes
`rho1 = 0`, hence `gamma = ⟨uu[1], r0⟩ = 0` on the very first lookahead
step, and the engine declares the `"gamma is zero"` breakdown before any
convergence check; the monitor never reports convergence
(`converged() = false` at return), even though the returned `x = (1)` has
true residual `0` (reported through `updateResidual`). -/
theorem claim_C5_failing :
    hasStopMsg (-11) "gamma is zero"
      (bicgstabl 1 c5A idP (tolMon (1 / 10 ^ 10)) [2] [1] ⟨false, false, 0⟩ 5).trace
      = true ∧
    (tolMon (1 / 10 ^ 10)).converged
      (bicgstabl 1 c5A idP (tolMon (1 / 10 ^ 10)) [2] [1] ⟨false, false, 0⟩ 5).mon
      = false ∧
    (bicgstabl 1 c5A idP (tolMon (1 / 10 ^ 10)) [2] [1] ⟨false, false, 0⟩ 5).outOfFuel
      = false ∧
    (bicgstabl 1 c5A idP (tolMon (1 / 10 ^ 10)) [2] [1] ⟨false, false, 0⟩ 5).st.x = [1] ∧
    (bicgstabl 1 c5A idP (tolMon (1 / 10 ^ 10)) [2] [1] ⟨false, false, 0⟩ 5).mon.lastRes
      = 0 := by
  refine ⟨?_, ?_, ?_, ?_, ?_⟩ <;> decide

/-! ### The fallible engine agrees with the pure engine -/

theorem except_bind_ok {ε α β : Type} (x : α) (f : α → Except ε β) :
    (Except.ok x >>= f : Except ε β) = f x := rfl

theorem except_pure_ok {ε α : Type} (x : α) :
    (pure x : Except ε α) = Except.ok x := rfl

theorem cpE_ok {σ ε : Type} (A P : Vec → Vec) (Mon : Monitor σ) (b : Vec)
    (st : SolveState) (m : σ) :
    checkpointStepE (okF ε A) (okF ε P) Mon b st m
      = Except.ok (checkpointStep A P Mon b st m) := by
  unfold checkpointStepE checkpointStep
  dsimp only
  by_cases h : (Mon.needCheckConvergence st.rNorm m).1 = true
  · rw [if_pos h, if_pos h]
    rfl
  · rw [if_neg h, if_neg h]
    rfl

theorem cpE_ok2 {σ ε : Type} (A P : Vec → Vec) (Mon : Monitor σ) (b : Vec)
    (st : SolveState) (m : σ) :
    checkpointStepE (fun v => Except.ok (A v)) (fun v => Except.ok (P v)) Mon b st m
      = (Except.ok (checkpointStep A P Mon b st m) : Except ε (CpRes σ)) :=
  @cpE_ok σ ε A P Mon b st m

theorem bicgStepE_ok {σ ε : Type} (A P : Vec → Vec) (Mon : Monitor σ) (b : Vec)
    (j : Nat) (st : SolveState) (m : σ) :
    bicgStepE (okF ε A) (okF ε P) Mon b j st m
      = Except.ok (bicgStep A P Mon b j st m) := by
  unfold bicgStepE bicgStep
  by_cases h0 : st.rho0 = 0
  · rw [if_pos h0, if_pos h0]
    rfl
  · rw [if_neg h0, if_neg h0]
    simp only [okF, except_bind_ok, except_pure_ok]
    simp only [cpE_ok, except_bind_ok, except_pure_ok]
    simp only [bicgGamma, bicgUU, bicgMidState, bicgAlpha, bicgStagRes, bicgEvStag,
      bicgSt2]
    split <;> rfl

theorem runBicgE_ok {σ ε : Type} (A P : Vec → Vec) (Mon : Monitor σ) (b : Vec)
    (js : List Nat) : ∀ (st : SolveState) (m : σ),
    runBicgE (okF ε A) (okF ε P) Mon b js st m
      = Except.ok (runBicg A P Mon b js st m) := by
  induction js with
  | nil =>
    intro st m
    rfl
  | cons j rest ih =>
    intro st m
    unfold runBicgE runBicg
    rw [bicgStepE_ok, except_bind_ok]
    dsimp only
    cases hf : (bicgStep A P Mon b j st m).flow
    · rw [ih, except_bind_ok]
      rfl
    · rfl

theorem mrPart3StepE_ok {σ ε : Type} (A P : Vec → Vec) (Mon : Monitor σ) (b : Vec)
    (gam gpp gp : List ℚ) (j : Nat) (st : SolveState) (m : σ) :
    mrPart3StepE (okF ε A) (okF ε P) Mon b gam gpp gp j st m
      = Except.ok (mrPart3Step A P Mon b gam gpp gp j st m) := by
  unfold mrPart3StepE mrPart3Step
  dsimp only
  rw [cpE_ok, except_bind_ok]
  rfl

theorem runPart3E_ok {σ ε : Type} (A P : Vec → Vec) (Mon : Monitor σ) (b : Vec)
    (gam gpp gp : List ℚ) (js : List Nat) : ∀ (st : SolveState) (m : σ),
    runPart3E (okF ε A) (okF ε P) Mon b gam gpp gp js st m
      = Except.ok (runPart3 A P Mon b gam gpp gp js st m) := by
  induction js with
  | nil =>
    intro st m
    rfl
  | cons j rest ih =>
    intro st m
    unfold runPart3E runPart3
    rw [mrPart3StepE_ok, except_bind_ok]
    dsimp only
    cases hf : (mrPart3Step A P Mon b gam gpp gp j st m).flow
    · rw [ih, except_bind_ok]
      rfl
    · rfl

theorem outerIterE_ok {σ ε : Type} (L : Nat) (A P : Vec → Vec) (Mon : Monitor σ)
    (b : Vec) (st0 : SolveState) (m0 : σ) :
    outerIterE L (okF ε A) (okF ε P) Mon b st0 m0
      = Except.ok (outerIter L A P Mon b st0 m0) := by
  unfold outerIterE outerIter
  try dsimp only
  rw [runBicgE_ok, except_bind_ok]
  try dsimp only
  rw [cpE_ok, except_bind_ok]
  try dsimp only
  rw [runPart3E_ok, except_bind_ok]
  try dsimp only
  simp only [except_pure_ok]
  split <;> try rfl
  split <;> try rfl
  split <;> try rfl
  split <;> try rfl
  split <;> rfl

theorem outerLoopE_ok {σ ε : Type} (L : Nat) (A P : Vec → Vec) (Mon : Monitor σ)
    (b : Vec) (fuel : Nat) : ∀ (st : SolveState) (m : σ),
    outerLoopE L (okF ε A) (okF ε P) Mon b fuel st m
      = Except.ok (outerLoop L A P Mon b fuel st m) := by
  induction fuel with
  | zero =>
    intro st m
    rfl
  | succ fp ih =>
    intro st m
    unfold outerLoopE outerLoop
    rw [outerIterE_ok, except_bind_ok]
    try dsimp only
    cases hf : (outerIter L A P Mon b st m).flow
    · rw [ih, except_bind_ok]
      rfl
    · rfl

theorem initStateE_ok {ε : Type} (A : Vec → Vec) (b x : Vec) (L : Nat) :
    initStateE (okF ε A) b x L = Except.ok (initState A b x L) := rfl

theorem finalizeE_ok {σ ε : Type} (A P : Vec → Vec) (Mon : Monitor σ) (b : Vec)
    (st : SolveState) (m : σ) :
    finalizeE (okF ε A) (okF ε P) Mon b st m
      = Except.ok (finalize A P Mon b st m) := by
  unfold finalizeE finalize
  by_cases h : Mon.converged m = true
  · rw [if_pos h, if_pos h]
    rfl
  · rw [if_neg h, if_neg h]
    rfl

theorem bicgstablE_ok {σ ε : Type} (L : Nat) (A P : Vec → Vec) (Mon : Monitor σ)
    (b x0 : Vec) (m : σ) (fuel : Nat) :
    bicgstablE L (okF ε A) (okF ε P) Mon b x0 m fuel
      = Except.ok (bicgstabl L A P Mon b x0 m fuel) := by
  unfold bicgstablE bicgstabl
  try dsimp only
  rw [initStateE_ok, except_bind_ok]
  try dsimp only
  rw [outerLoopE_ok, except_bind_ok]
  try dsimp only
  rw [finalizeE_ok, except_bind_ok]
  try dsimp only
  simp only [except_pure_ok]
  split <;> rfl

/-- Claim C8: exception transparency of the solver.  With infallible
collaborators the fallible engine returns exactly the pure engine's
result wrapped in `Except.ok` — the engine adds no failure of its own and
swallows none — and with an operator that raises, the very first
collaborator call (`A·x` during the residual initialization) makes the
whole solver call return that exception unmodified. -/
theorem claim_C8 {σ ε : Type} (L : Nat) (A P : Vec → Vec) (Mon : Monitor σ)
    (b x0 : Vec) (m : σ) (fuel : Nat) (e : ε) (PE : Vec → Except ε Vec) :
    bicgstablE L (okF ε A) (okF ε P) Mon b x0 m fuel
      = Except.ok (bicgstabl L A P Mon b x0 m fuel) ∧
    bicgstablE L (fun _ => Except.error e) PE Mon b x0 m fuel
      = Except.error e :=
  ⟨bicgstablE_ok L A P Mon b x0 m fuel, rfl⟩

end SaP
